import Mathlib

/-!
# ml-io: source enumeration and the instance reading / batching pipeline

A shallow embedding of `src/mlio/data_stores/file_list.cc` (the function
`list_files` with its traversal comparator `natural_sort`) and of the reader
pipeline declared in `src/mlio/instance_readers/*.h` and
`src/mlio/instance_batch_reader.h`.

The C library (`fts_open`/`fts_read`, `fnmatch`) is external to the repository:
`list_files` takes it as a parameter, so every theorem about `list_files`
holds for whatever the library delivers.
-/

namespace mlio

/-! ## Data model of `file_list.cc` -/

/-- The values of `FTSENT::fts_info` (`fts.h`). -/
inductive FtsInfo where
  | FTS_D | FTS_DC | FTS_DEFAULT | FTS_DNR | FTS_DOT | FTS_DP | FTS_ERR
  | FTS_F | FTS_INIT | FTS_NS | FTS_NSOK | FTS_SL | FTS_SLNONE | FTS_W
  deriving DecidableEq, Repr

/-- The file type held in `st_mode` (`S_IFMT` of `sys/stat.h`). -/
inductive FileType where
  | S_IFREG | S_IFBLK | S_IFDIR | S_IFCHR | S_IFIFO | S_IFSOCK | S_IFLNK
  deriving DecidableEq, Repr

/-- The predicate `S_ISREG` of `sys/stat.h`. -/
def S_ISREG (m : FileType) : Bool := m = FileType.S_IFREG

/-- The predicate `S_ISBLK` of `sys/stat.h`. -/
def S_ISBLK (m : FileType) : Bool := m = FileType.S_IFBLK

/-- The fields of `FTSENT` that `file_list.cc` reads. -/
structure FTSENT where
  fts_info : FtsInfo
  fts_accpath : String
  fts_name : String
  st_mode : FileType
  deriving DecidableEq, Repr

/-- One non-null return of `fts_read`: the entry, and the value of `errno`
when the call returned. -/
structure FtsRead where
  ent : FTSENT
  errno : Nat
  deriving DecidableEq, Repr

/-- What `fts_open` and the following calls of `fts_read` deliver: either
`fts_open` returns a null pointer (with `errno`), or `fts_read` returns the
given entries one by one and then a null pointer (with `errno`). -/
inductive FtsStream where
  | open_failed (errno : Nat)
  | opened (reads : List FtsRead) (end_errno : Nat)
  deriving DecidableEq, Repr

/-- The C library functions `file_list.cc` calls. The comparator handed to
`fts_open` compares two entries as the function pointer of the source does. -/
structure Libc where
  fts_open : List String → (FTSENT → FTSENT → Int) → FtsStream
  fnmatch : String → String → Int → Int

/-- The return value `FNM_NOMATCH` of `fnmatch.h`. -/
def FNM_NOMATCH : Int := 1

/-- The compression kinds of a data store. -/
inductive Compression where
  | none | infer | gzip | bzip2 | zip
  deriving DecidableEq, Repr

/-- The record `File_list_options`: `predicate` is a pointer (possibly null)
to a `std::function` (possibly empty). -/
structure File_list_options where
  pattern : String
  predicate : Option (Option (String → Bool))
  memory_map : Bool
  compression : Compression

/-- The data store `File` built by `make_intrusive<File>(path, mmap, compression)`. -/
structure File where
  path : String
  memory_map : Bool
  compression : Compression
  deriving DecidableEq, Repr

/-- The exceptions thrown by `file_list.cc`. -/
inductive Error where
  | system_error (code : Nat) (what : String)
  | invalid_argument (what : String)
  deriving DecidableEq, Repr

deriving instance DecidableEq for Except

/-- A call of an external matcher made by the loop of `list_files`. -/
inductive Call where
  | fnmatch (pattern path : String)
  | predicate (path : String)
  deriving DecidableEq, Repr

/-! ## `strnatcmp` (natural order string comparison)

The function `strnatcmp` comes from the natsort library (`strnatcmp.h`), a
dependency of the repository; it is embedded from `strnatcmp.c`, on strings of
ASCII bytes. -/

/-- The test `nat_isdigit` of `strnatcmp.c`, on a byte. -/
def nat_isdigit (c : Nat) : Bool := 48 ≤ c && c ≤ 57

/-- The test `nat_isspace` of `strnatcmp.c` (C locale), on a byte. -/
def nat_isspace (c : Nat) : Bool := c = 32 || (9 ≤ c && c ≤ 13)

/-- The byte a C string pointer points to: 0 at the terminator. -/
def cstr_head (s : List Nat) : Nat := s.headD 0

/-- The function `compare_right` of `strnatcmp.c`: the longest run of digits
wins, otherwise the first differing digit (remembered in `bias`). -/
def compare_right : List Nat → List Nat → Int → Int
  | [], b, bias => if !nat_isdigit (cstr_head b) then bias else -1
  | x :: a, b, bias =>
    let y := cstr_head b
    if !nat_isdigit x && !nat_isdigit y then bias
    else if !nat_isdigit x then -1
    else if !nat_isdigit y then 1
    else if x < y then compare_right a b.tail (if bias = 0 then -1 else bias)
    else if x > y then compare_right a b.tail (if bias = 0 then 1 else bias)
    else compare_right a b.tail bias

/-- The function `compare_left` of `strnatcmp.c`: the first differing digit
of two left-aligned numbers wins. -/
def compare_left : List Nat → List Nat → Int
  | [], b => if !nat_isdigit (cstr_head b) then 0 else -1
  | x :: a, b =>
    let y := cstr_head b
    if !nat_isdigit x && !nat_isdigit y then 0
    else if !nat_isdigit x then -1
    else if !nat_isdigit y then 1
    else if x < y then -1
    else if x > y then 1
    else compare_left a b.tail

/-- The loop of `strnatcmp0` (without case folding); `fuel` bounds the number
of iterations, each of which advances in both strings. -/
def strnatcmp0 : Nat → List Nat → List Nat → Int
  | 0, _, _ => 0
  | fuel + 1, a, b =>
    let a1 := a.dropWhile nat_isspace
    let b1 := b.dropWhile nat_isspace
    let ca := cstr_head a1
    let cb := cstr_head b1
    let result : Int :=
      if nat_isdigit ca && nat_isdigit cb then
        if ca = 48 || cb = 48 then compare_left a1 b1 else compare_right a1 b1 0
      else 0
    if result ≠ 0 then result
    else if ca = 0 ∧ cb = 0 then 0
    else if ca < cb then -1
    else if ca > cb then 1
    else strnatcmp0 fuel a1.tail b1.tail

/-- The bytes of a C string. -/
def c_str (s : String) : List Nat := s.data.map Char.toNat

/-- The function `strnatcmp` of `strnatcmp.c`. -/
def strnatcmp (a b : String) : Int :=
  strnatcmp0 ((c_str a).length + 1) (c_str a) (c_str b)

/-! ## `file_list.cc` -/

/-- The comparator `natural_sort` handed to `fts_open`: it compares the
`fts_name` of two entries. -/
def natural_sort (a b : FTSENT) : Int := strnatcmp a.fts_name b.fts_name

/-- The outcome of one iteration of the loop of `list_files`, with the calls
of the matchers it made. -/
inductive Visited where
  | raise (e : Error) (calls : List Call)
  | skip (calls : List Call)
  | emplace (f : File) (calls : List Call)
  deriving DecidableEq, Repr

/-- The predicate part of the loop body of `list_files` (lines 126 to 136). -/
def visit_predicate (opts : File_list_options) (path : String) (calls : List Call) :
    Visited :=
  match opts.predicate with
  | some (some p) =>
    if !p path then Visited.skip (calls ++ [Call.predicate path])
    else Visited.emplace ⟨path, opts.memory_map, opts.compression⟩
      (calls ++ [Call.predicate path])
  | _ => Visited.emplace ⟨path, opts.memory_map, opts.compression⟩ calls

/-- The body of the loop of `list_files` (lines 100 to 136) for one entry. -/
def visit (libc : Libc) (opts : File_list_options) (r : FtsRead) : Visited :=
  let e := r.ent
  if e.fts_info = FtsInfo.FTS_ERR ∨ e.fts_info = FtsInfo.FTS_DNR ∨
      e.fts_info = FtsInfo.FTS_NS then
    Visited.raise (Error.system_error r.errno
      ("The file or directory '" ++ e.fts_accpath ++ "' cannot be opened.")) []
  else if e.fts_info ≠ FtsInfo.FTS_F then Visited.skip []
  else if !S_ISREG e.st_mode && !S_ISBLK e.st_mode then Visited.skip []
  else if opts.pattern ≠ "" then
    let m := libc.fnmatch opts.pattern e.fts_accpath 0
    if m = FNM_NOMATCH then Visited.skip [Call.fnmatch opts.pattern e.fts_accpath]
    else if m ≠ 0 then
      Visited.raise (Error.invalid_argument "The pattern cannot be used for comparison.")
        [Call.fnmatch opts.pattern e.fts_accpath]
    else visit_predicate opts e.fts_accpath [Call.fnmatch opts.pattern e.fts_accpath]
  else visit_predicate opts e.fts_accpath []

/-- The loop `while ((e = fts_read(...)) != nullptr)` of `list_files`, over
the entries `fts_read` returns, with the result vector and the log of matcher
calls so far. -/
def list_files_loop (libc : Libc) (opts : File_list_options) :
    List FtsRead → List File → List Call → Except Error (List File) × List Call
  | [], result, log => (Except.ok result, log)
  | r :: rs, result, log =>
    match visit libc opts r with
    | Visited.raise e c => (Except.error e, log ++ c)
    | Visited.skip c => list_files_loop libc opts rs result (log ++ c)
    | Visited.emplace f c => list_files_loop libc opts rs (result ++ [f]) (log ++ c)

/-- The function `list_files(paths, opts)` together with the log of the
matcher calls it made. -/
def list_files_traced (libc : Libc) (paths : List String) (opts : File_list_options) :
    Except Error (List File) × List Call :=
  match libc.fts_open paths natural_sort with
  | FtsStream.open_failed errno =>
    (Except.error (Error.system_error errno "The specified paths cannot be traversed."), [])
  | FtsStream.opened reads end_errno =>
    let out := list_files_loop libc opts reads [] []
    (match out.1 with
      | Except.error e => Except.error e
      | Except.ok result =>
        if end_errno ≠ 0 then
          Except.error (Error.system_error end_errno "The specified paths cannot be traversed.")
        else Except.ok result,
     out.2)

/-- The function `list_files(paths, opts)`. -/
def list_files (libc : Libc) (paths : List String) (opts : File_list_options) :
    Except Error (List File) :=
  (list_files_traced libc paths opts).1

/-! ## A model of `fts(3)` over a file tree

The traversal functions belong to the C library; this model follows their
manual page and serves to build the walks of concrete file trees. -/

/-- A file tree: a file of some type other than directory, or a directory
with its named entries. -/
inductive Node where
  | file (type : FileType)
  | dir (children : List (String × Node))

/-- The value of `fts_info` that `fts(3)` gives to a successfully stat-ed
entry in a logical walk: `FTS_D` for a directory (in pre-order), `FTS_F` for a
regular file, `FTS_SLNONE` for a symbolic link (one that could not be
followed), and `FTS_DEFAULT` for every other type. -/
def fts_stat : FileType → FtsInfo
  | FileType.S_IFREG => FtsInfo.FTS_F
  | FileType.S_IFDIR => FtsInfo.FTS_D
  | FileType.S_IFLNK => FtsInfo.FTS_SLNONE
  | _ => FtsInfo.FTS_DEFAULT

/-- The type in `st_mode` of a node. -/
def Node.st_mode : Node → FileType
  | Node.file t => t
  | Node.dir _ => FileType.S_IFDIR

/-- The entry `fts` builds for a node with the given name and path. -/
def fts_entry (name path : String) (n : Node) : FTSENT :=
  ⟨fts_stat n.st_mode, path, name, n.st_mode⟩

/-- Insertion of an entry into a list ordered by the comparator. -/
def fts_insert (compar : FTSENT → FTSENT → Int) (x : FTSENT × Node) :
    List (FTSENT × Node) → List (FTSENT × Node)
  | [] => [x]
  | y :: ys => if compar x.1 y.1 ≤ 0 then x :: y :: ys else y :: fts_insert compar x ys

/-- The ordering `fts_sort` of the entries of one level by the comparator. -/
def fts_sort (compar : FTSENT → FTSENT → Int) (l : List (FTSENT × Node)) :
    List (FTSENT × Node) :=
  l.foldr (fts_insert compar) []

/-- The entries `fts_read` returns for one node, in order: a file is returned
once; a directory is returned in pre-order (`FTS_D`), then its entries in the
order of the comparator, each with its subtree, then the directory again in
post-order (`FTS_DP`). The path of an entry is the path of its directory,
given without a trailing slash, followed by `/` and the name. `fuel` bounds
the depth of the tree. -/
def fts_walk (compar : FTSENT → FTSENT → Int) : Nat → FTSENT × Node → List FtsRead
  | 0, _ => []
  | _ + 1, (e, Node.file _) => [⟨e, 0⟩]
  | fuel + 1, (e, Node.dir children) =>
    [⟨e, 0⟩] ++
    ((fts_sort compar (children.map (fun c =>
        (fts_entry c.1 (e.fts_accpath ++ "/" ++ c.1) c.2, c.2)))).map
      (fts_walk compar fuel)).flatten ++
    [⟨{ e with fts_info := FtsInfo.FTS_DP }, 0⟩]

/-- The root entry `fts_open` builds for a path: name and access path are the
path as given, as the comparator sees them when the roots are ordered
(`fts_read` later shortens the name of a root to its last component, which
`list_files` does not read); a path that cannot be resolved gives an `FTS_NS`
entry. -/
def fts_root (fs : String → Option Node) (path : String) : FTSENT × Node :=
  match fs path with
  | some n => (fts_entry path path n, n)
  | none => (⟨FtsInfo.FTS_NS, path, path, FileType.S_IFREG⟩, Node.file FileType.S_IFREG)

/-- The value `ENOENT` of `errno.h`. -/
def ENOENT : Nat := 2

/-- The stream `fts_open(paths, FTS_LOGICAL | FTS_NOCHDIR, compar)` delivers
over the file system `fs`: the roots in the order of the comparator, each
with its subtree. The model covers the walks that open: a failure of
`fts_open` itself is the case `FtsStream.open_failed`, which it never yields.
An `FTS_NS` root is returned with `ENOENT` in `errno`, every other entry with
`errno` 0. -/
def fts_open_model (fs : String → Option Node) (fuel : Nat) (paths : List String)
    (compar : FTSENT → FTSENT → Int) : FtsStream :=
  FtsStream.opened
    (((fts_sort compar (paths.map (fts_root fs))).map (fun r =>
      if r.1.fts_info = FtsInfo.FTS_NS then [(⟨r.1, ENOENT⟩ : FtsRead)]
      else fts_walk compar fuel r)).flatten) 0

/-- The calls recorded in the outcome of one iteration. -/
def Visited.calls : Visited → List Call
  | Visited.raise _ c => c
  | Visited.skip c => c
  | Visited.emplace _ c => c

/-- An entry reported as erroneous, as an unreadable directory or as lacking
stat information. -/
def erroneous (e : FTSENT) : Prop :=
  e.fts_info = FtsInfo.FTS_ERR ∨ e.fts_info = FtsInfo.FTS_DNR ∨ e.fts_info = FtsInfo.FTS_NS

instance (e : FTSENT) : Decidable (erroneous e) := by unfold erroneous; infer_instance

/-- An entry that passes the two type gates of the loop (lines 106 to 113). -/
def eligible (e : FTSENT) : Prop :=
  e.fts_info = FtsInfo.FTS_F ∧ (S_ISREG e.st_mode = true ∨ S_ISBLK e.st_mode = true)

instance (e : FTSENT) : Decidable (eligible e) := by unfold eligible; infer_instance

/-- The pattern accepts a path: it is empty or the glob match succeeds. -/
def pattern_accepts (libc : Libc) (opts : File_list_options) (path : String) : Prop :=
  opts.pattern = "" ∨ libc.fnmatch opts.pattern path 0 = 0

instance (libc : Libc) (opts : File_list_options) (path : String) :
    Decidable (pattern_accepts libc opts path) := by unfold pattern_accepts; infer_instance

/-- The predicate accepts a path: it is absent (null pointer), null (empty
function) or returns true. -/
def predicate_accepts (opts : File_list_options) (path : String) : Prop :=
  match opts.predicate with
  | some (some p) => p path = true
  | _ => True

instance (opts : File_list_options) (path : String) :
    Decidable (predicate_accepts opts path) := by
  unfold predicate_accepts; split <;> infer_instance

/-- The data source built for a path. -/
def make_file (opts : File_list_options) (path : String) : File :=
  ⟨path, opts.memory_map, opts.compression⟩

/-- An entry contributes a data source. -/
def contributes (libc : Libc) (opts : File_list_options) (r : FtsRead) : Prop :=
  eligible r.ent ∧ pattern_accepts libc opts r.ent.fts_accpath ∧
    predicate_accepts opts r.ent.fts_accpath

instance (libc : Libc) (opts : File_list_options) (r : FtsRead) :
    Decidable (contributes libc opts r) := by unfold contributes; infer_instance

/-- The matcher calls the pattern part of the loop body makes for a path. -/
def pattern_calls (opts : File_list_options) (path : String) : List Call :=
  if opts.pattern ≠ "" then [Call.fnmatch opts.pattern path] else []

/-- The pattern can be compared with the path: the match reports 'match' or
'no match'. -/
def pattern_usable (libc : Libc) (opts : File_list_options) (path : String) : Prop :=
  opts.pattern = "" ∨ libc.fnmatch opts.pattern path 0 = 0 ∨
    libc.fnmatch opts.pattern path 0 = FNM_NOMATCH

instance (libc : Libc) (opts : File_list_options) (path : String) :
    Decidable (pattern_usable libc opts path) := by unfold pattern_usable; infer_instance

/-! ## The instance readers and the batch reader

Only the class declarations of the readers are among the sources
(`sharded_instance_reader.h`, `ranged_instance_reader.h`,
`instance_batch_reader.h`); their member functions are modelled from the
specification. -/

/-- Modelled from the spec: the enumeration `last_batch_handling` (declared in
`mlio/data_reader.h`, which is missing), one of keep-partial, drop-partial and
pad-partial. -/
inductive last_batch_handling where
  | keep | drop | pad
  deriving DecidableEq, Repr

/-- Modelled from the spec: the record `data_reader_params` (declared in
`mlio/data_reader.h`, which is missing), with the options the pipeline
recognises. -/
structure data_reader_params where
  batch_size : Nat
  num_instances_to_skip : Nat
  num_instances_to_read : Option Nat
  shard_index : Nat
  shard_count : Nat
  last_batch_hnd : last_batch_handling
  deriving DecidableEq, Repr

/-- Modelled from the spec: the configuration error raised at the construction
of a decorator or of the batch reader (the error classes are missing). -/
inductive reader_error where
  | configuration_error
  deriving DecidableEq, Repr

/-- Modelled from the spec: an inner Instance Reader (`instance_reader.h` is
missing; the concrete decoders are external) over a finite stream of
instances: `stream` is the whole logical stream, `rest` what has not been
pulled since the last reset, `num_reads` the number of pulls so far. -/
structure instance_reader (α : Type) where
  stream : List α
  rest : List α
  num_reads : Nat
  deriving DecidableEq, Repr

/-- A fresh inner reader over a stream. -/
def instance_reader.over {α : Type} (xs : List α) : instance_reader α := ⟨xs, xs, 0⟩

/-- Modelled from the spec: `read_instance() → optional Instance` of the inner
reader; none signals end of stream. -/
def instance_reader.read_instance {α : Type} (r : instance_reader α) :
    Option α × instance_reader α :=
  match r.rest with
  | [] => (none, ⟨r.stream, [], r.num_reads + 1⟩)
  | x :: rest => (some x, ⟨r.stream, rest, r.num_reads + 1⟩)

/-- Modelled from the spec: `reset()` of the inner reader rewinds to the
logical beginning. -/
def instance_reader.reset {α : Type} (r : instance_reader α) : instance_reader α :=
  ⟨r.stream, r.stream, r.num_reads⟩

/-- Pull and discard up to `n` instances from a reader, stopping at the end
of the stream. -/
def instance_reader.discard {α : Type} : Nat → instance_reader α → instance_reader α
  | 0, r => r
  | n + 1, r =>
    match r.read_instance with
    | (none, r1) => r1
    | (some _, r1) => instance_reader.discard n r1

/-- Modelled from the spec: the life cycle fresh → streaming → exhausted that
the common base `instance_reader_base` (missing) enforces. -/
inductive life_cycle where
  | fresh | streaming | exhausted
  deriving DecidableEq, Repr

/-- Modelled from the spec: a reader built on the common base: the state of
the concrete reader and the life cycle state of the base. -/
structure instance_reader_base (σ : Type) where
  core : σ
  state : life_cycle
  deriving DecidableEq, Repr

/-- Modelled from the spec: `read_instance` of the common base (missing):
`read_instance_core` is never called again once it has returned none, until
`reset()` is invoked. -/
def instance_reader_base.read_instance {σ α : Type}
    (read_instance_core : σ → Option α × σ) (b : instance_reader_base σ) :
    Option α × instance_reader_base σ :=
  if b.state = life_cycle.exhausted then (none, b)
  else
    match read_instance_core b.core with
    | (none, c) => (none, ⟨c, life_cycle.exhausted⟩)
    | (some x, c) => (some x, ⟨c, life_cycle.streaming⟩)

/-- Modelled from the spec: `reset` of the common base (missing): `reset_core`
always returns the reader to fresh. -/
def instance_reader_base.reset {σ : Type} (reset_core : σ → σ)
    (b : instance_reader_base σ) : instance_reader_base σ :=
  ⟨reset_core b.core, life_cycle.fresh⟩

/-- The results of `k` successive pulls with a read function, and the state
after them. -/
def read_n {σ β : Type} (step : σ → Option β × σ) : Nat → σ → List (Option β) × σ
  | 0, s => ([], s)
  | k + 1, s => ((step s).1 :: (read_n step k (step s).2).1, (read_n step k (step s).2).2)

/-! ### Shard decorator -/

/-- The members of `sharded_instance_reader` (`params_`, `inner_`,
`first_read_`) and, modelled from the spec, the running position counter. -/
structure sharded_core (α : Type) where
  params : data_reader_params
  inner : instance_reader α
  first_read : Bool
  position : Nat
  deriving DecidableEq, Repr

/-- Modelled from the spec: the loop of the shard decorator (the member
functions of `sharded_instance_reader` are missing): pull repeatedly from the
inner reader, incrementing the position counter each time and discarding the
instances whose position does not satisfy
`position mod shard_count == shard_index`, until a matching instance is found
or the inner reader signals end of stream. The first argument bounds the
number of iterations; `read_instance_core` passes one more than the number of
instances left in the inner stream, which the loop cannot exceed. -/
def sharded_core.pull_matching {α : Type} (prm : data_reader_params) :
    Nat → Nat → instance_reader α → Option α × Nat × instance_reader α
  | 0, position, inner => (none, position, inner)
  | fuel + 1, position, inner =>
    match inner.read_instance with
    | (none, inner1) => (none, position, inner1)
    | (some x, inner1) =>
      if position % prm.shard_count = prm.shard_index then (some x, position + 1, inner1)
      else sharded_core.pull_matching prm fuel (position + 1) inner1

/-- Modelled from the spec: `sharded_instance_reader::read_instance_core`
(missing). The flag of the first pull since the reset is cleared. -/
def sharded_core.read_instance_core {α : Type} (c : sharded_core α) :
    Option α × sharded_core α :=
  let r := sharded_core.pull_matching c.params (c.inner.rest.length + 1) c.position c.inner
  (r.1, ⟨c.params, r.2.2, false, r.2.1⟩)

/-- Modelled from the spec: `sharded_instance_reader::reset_core` (missing)
zeroes the position counter and resets the inner reader. -/
def sharded_core.reset_core {α : Type} (c : sharded_core α) : sharded_core α :=
  ⟨c.params, c.inner.reset, true, 0⟩

/-- The shard decorator on the common base. -/
abbrev sharded_instance_reader (α : Type) := instance_reader_base (sharded_core α)

/-- Modelled from the spec: the constructor of `sharded_instance_reader`
(missing) fails with a configuration error if `shard_index ≥ shard_count` or
`shard_count == 0`. -/
def sharded_instance_reader.make {α : Type} (prm : data_reader_params)
    (inner : instance_reader α) : Except reader_error (sharded_instance_reader α) :=
  if prm.shard_count = 0 ∨ prm.shard_index ≥ prm.shard_count then
    Except.error reader_error.configuration_error
  else Except.ok ⟨⟨prm, inner, true, 0⟩, life_cycle.fresh⟩

/-- The function `read_instance` of the shard decorator. -/
def sharded_instance_reader.read_instance {α : Type} (s : sharded_instance_reader α) :
    Option α × sharded_instance_reader α :=
  instance_reader_base.read_instance sharded_core.read_instance_core s

/-- The function `reset` of the shard decorator. -/
def sharded_instance_reader.reset {α : Type} (s : sharded_instance_reader α) :
    sharded_instance_reader α :=
  instance_reader_base.reset sharded_core.reset_core s

/-- The instances of a stream whose zero-based position `p` satisfies
`p mod shard_count == shard_index`, in order. -/
def shard_of {α : Type} (shard_count shard_index : Nat) (xs : List α) : List α :=
  (xs.enum.filter (fun q => decide (q.1 % shard_count = shard_index))).map Prod.snd

/-- The parameters with the shard index replaced by `i`. -/
def with_shard_index (prm : data_reader_params) (i : Nat) : data_reader_params :=
  ⟨prm.batch_size, prm.num_instances_to_skip, prm.num_instances_to_read, i, prm.shard_count,
    prm.last_batch_hnd⟩

/-- The instances the shard reader with index `i` yields over a stream, pulled
until after the end of the stream. -/
def shard_output {α : Type} (prm : data_reader_params) (i : Nat) (xs : List α) : List α :=
  match sharded_instance_reader.make (with_shard_index prm i) (instance_reader.over xs) with
  | Except.error _ => []
  | Except.ok s => (read_n sharded_instance_reader.read_instance (xs.length + 1) s).1.reduceOption

/-- The instances of a stream, whose first instance has position `p`, that
belong to shard `i` of `n`. -/
def shard_from {α : Type} (n i : Nat) : Nat → List α → List α
  | _, [] => []
  | p, x :: xs => if p % n = i then x :: shard_from n i (p + 1) xs else shard_from n i (p + 1) xs

/-! ### Range decorator -/

/-- The members of `Ranged_instance_reader` (`params_`, `inner_`,
`first_read_`, `num_instances_read_`). -/
structure ranged_core (α : Type) where
  params : data_reader_params
  inner : instance_reader α
  first_read : Bool
  num_instances_read : Nat
  deriving DecidableEq, Repr

/-- Modelled from the spec: `Ranged_instance_reader::should_stop_reading`
(declared in the header, its body is missing): the bound is set and
reached. -/
def ranged_core.should_stop_reading {α : Type} (c : ranged_core α) : Bool :=
  match c.params.num_instances_to_read with
  | none => false
  | some n => decide (n ≤ c.num_instances_read)

/-- Modelled from the spec: `Ranged_instance_reader::read_instance_core`
(missing). If the bound is set and reached, end of stream is returned without
consulting the inner reader. Otherwise, on the first pull after construction
or reset, the initial skip count of this stage (`num_instances_to_skip` of
its parameters) is applied before counting begins; then the pull is delegated
to the inner reader: an instance increments the counter and is forwarded, end
of stream is propagated. -/
def ranged_core.read_instance_core {α : Type} (c : ranged_core α) :
    Option α × ranged_core α :=
  if c.should_stop_reading then (none, c)
  else
    let inner0 :=
      if c.first_read then c.inner.discard c.params.num_instances_to_skip else c.inner
    match inner0.read_instance with
    | (none, inner1) => (none, ⟨c.params, inner1, false, c.num_instances_read⟩)
    | (some x, inner1) => (some x, ⟨c.params, inner1, false, c.num_instances_read + 1⟩)

/-- Modelled from the spec: `Ranged_instance_reader::reset_core` (missing)
resets the counter to zero and resets the inner reader. -/
def ranged_core.reset_core {α : Type} (c : ranged_core α) : ranged_core α :=
  ⟨c.params, c.inner.reset, true, 0⟩

/-- The range decorator on the common base. -/
abbrev Ranged_instance_reader (α : Type) := instance_reader_base (ranged_core α)

/-- Modelled from the spec: the constructor of `Ranged_instance_reader`
(missing). -/
def Ranged_instance_reader.make {α : Type} (prm : data_reader_params)
    (inner : instance_reader α) : Ranged_instance_reader α :=
  ⟨⟨prm, inner, true, 0⟩, life_cycle.fresh⟩

/-- The function `read_instance` of the range decorator. -/
def Ranged_instance_reader.read_instance {α : Type} (s : Ranged_instance_reader α) :
    Option α × Ranged_instance_reader α :=
  instance_reader_base.read_instance ranged_core.read_instance_core s

/-- The function `reset` of the range decorator. -/
def Ranged_instance_reader.reset {α : Type} (s : Ranged_instance_reader α) :
    Ranged_instance_reader α :=
  instance_reader_base.reset ranged_core.reset_core s

/-! ### Instance batch reader -/

/-- Modelled from the spec: an Instance Batch (`instance_batch` of
`mlio/instance_batch.h`, missing): an ordered, finite sequence of instances
plus its `batch_index`, and the mark of a padded batch. -/
structure instance_batch (α : Type) where
  batch_index : Nat
  instances : List α
  padded : Bool
  deriving DecidableEq, Repr

/-- The number of instances of a batch. -/
def instance_batch.size {α : Type} (b : instance_batch α) : Nat := b.instances.length

/-- The members of `instance_batch_reader` (`params_`, `reader_`,
`batch_idx_`) and, modelled from the spec, the instance the caller-supplied
fill policy (an external collaborator) pads with. -/
structure instance_batch_reader (α : Type) where
  params : data_reader_params
  reader : instance_reader α
  batch_idx : Nat
  fill : α
  deriving DecidableEq, Repr

/-- Pull up to `n` instances from a reader, stopping early only on end of
stream. -/
def instance_reader.collect {α : Type} : Nat → instance_reader α → List α × instance_reader α
  | 0, r => ([], r)
  | n + 1, r =>
    match r.read_instance with
    | (none, r1) => ([], r1)
    | (some x, r1) => (x :: (instance_reader.collect n r1).1, (instance_reader.collect n r1).2)

/-- Modelled from the spec: `instance_batch_reader::init_num_instances_to_skip`
(declared in the header, its body is missing): the one-time instance skip
count is `num_instances_to_skip`, and that many instances are pulled from the
wrapped reader and discarded. -/
def instance_batch_reader.init_num_instances_to_skip {α : Type}
    (b : instance_batch_reader α) : instance_batch_reader α :=
  ⟨b.params, b.reader.discard b.params.num_instances_to_skip, b.batch_idx, b.fill⟩

/-- Modelled from the spec: the constructor of `instance_batch_reader`
(missing): a batch size of zero is a configuration error; the initial skip is
applied on construction. -/
def instance_batch_reader.make {α : Type} (prm : data_reader_params)
    (rdr : instance_reader α) (fill : α) : Except reader_error (instance_batch_reader α) :=
  if prm.batch_size = 0 then Except.error reader_error.configuration_error
  else Except.ok (instance_batch_reader.init_num_instances_to_skip ⟨prm, rdr, 0, fill⟩)

/-- Modelled from the spec: `instance_batch_reader::read_instance_batch`
(missing): pull up to `batch_size` instances; with nothing collected return
end of stream; with fewer than `batch_size` collected apply the last-batch
policy (keep the short batch, drop it and return end of stream, or pad it to
`batch_size` and mark it padded); a returned batch gets the current
`batch_index`, which is then incremented. -/
def instance_batch_reader.read_instance_batch {α : Type} (b : instance_batch_reader α) :
    Option (instance_batch α) × instance_batch_reader α :=
  let c := b.reader.collect b.params.batch_size
  if c.1.isEmpty then (none, ⟨b.params, c.2, b.batch_idx, b.fill⟩)
  else if c.1.length < b.params.batch_size then
    match b.params.last_batch_hnd with
    | last_batch_handling.keep =>
      (some ⟨b.batch_idx, c.1, false⟩, ⟨b.params, c.2, b.batch_idx + 1, b.fill⟩)
    | last_batch_handling.drop => (none, ⟨b.params, c.2, b.batch_idx, b.fill⟩)
    | last_batch_handling.pad =>
      (some ⟨b.batch_idx,
          c.1 ++ List.replicate (b.params.batch_size - c.1.length) b.fill, true⟩,
        ⟨b.params, c.2, b.batch_idx + 1, b.fill⟩)
  else (some ⟨b.batch_idx, c.1, false⟩, ⟨b.params, c.2, b.batch_idx + 1, b.fill⟩)

/-- Modelled from the spec: `instance_batch_reader::reset` (missing) resets
the wrapped reader and re-applies the initial skip computation; `batch_index`
restarts at 0. -/
def instance_batch_reader.reset {α : Type} (b : instance_batch_reader α) :
    instance_batch_reader α :=
  instance_batch_reader.init_num_instances_to_skip ⟨b.params, b.reader.reset, 0, b.fill⟩

/-- The batches into which a stream is grouped, numbered from `idx`: full
batches of `batch_size` consecutive instances, and a last short batch treated
by the last-batch policy. The first argument bounds the number of batches. -/
def batches_of {α : Type} (prm : data_reader_params) (fill : α) :
    Nat → Nat → List α → List (instance_batch α)
  | 0, _, _ => []
  | fuel + 1, idx, xs =>
    if xs.isEmpty then []
    else if xs.length < prm.batch_size then
      match prm.last_batch_hnd with
      | last_batch_handling.keep => [⟨idx, xs, false⟩]
      | last_batch_handling.drop => []
      | last_batch_handling.pad =>
        [⟨idx, xs ++ List.replicate (prm.batch_size - xs.length) fill, true⟩]
    else
      ⟨idx, xs.take prm.batch_size, false⟩ ::
        batches_of prm fill fuel (idx + 1) (xs.drop prm.batch_size)

/-- The last batch of a stream whose length is not a multiple of the batch
size, numbered `idx`, under the last-batch policy: the trailing `L mod b`
instances kept as a short batch, dropped, or padded to the batch size and
marked padded. -/
def last_batch {α : Type} (prm : data_reader_params) (fill : α) (idx : Nat) (xs : List α) :
    List (instance_batch α) :=
  if xs.length % prm.batch_size = 0 then []
  else
    match prm.last_batch_hnd with
    | last_batch_handling.keep =>
      [⟨idx, xs.drop (xs.length / prm.batch_size * prm.batch_size), false⟩]
    | last_batch_handling.drop => []
    | last_batch_handling.pad =>
      [⟨idx, xs.drop (xs.length / prm.batch_size * prm.batch_size) ++
        List.replicate (prm.batch_size - xs.length % prm.batch_size) fill, true⟩]

/-- The batches a stream of length `L` is expected to give with batch size
`b`, numbered from `idx`: `floor(L/b)` full batches, the batch `j` holding the
`b` consecutive instances from position `j * b` on, followed by the last batch
under the last-batch policy. -/
def expected_batches {α : Type} (prm : data_reader_params) (fill : α) (idx : Nat)
    (xs : List α) : List (instance_batch α) :=
  (List.range (xs.length / prm.batch_size)).map
      (fun j => ⟨idx + j, (xs.drop (j * prm.batch_size)).take prm.batch_size, false⟩) ++
    last_batch prm fill (idx + xs.length / prm.batch_size) xs

/-- The results of `k` calls of `read_instance_batch` on a batch reader
constructed over a wrapped reader (none of them when the construction
fails). -/
def batch_outputs {α : Type} (prm : data_reader_params) (rdr : instance_reader α) (fill : α)
    (k : Nat) : List (Option (instance_batch α)) :=
  match instance_batch_reader.make prm rdr fill with
  | Except.error _ => []
  | Except.ok s => (read_n instance_batch_reader.read_instance_batch k s).1

/-! ## Concrete inputs -/

/-- A tree with the root directory `r` holding the file `a.txt` and the
directory `a`, which holds the file `x`. -/
def tree_nested : String → Option Node := fun p =>
  if p = "r" then
    some (Node.dir [("a.txt", Node.file FileType.S_IFREG),
      ("a", Node.dir [("x", Node.file FileType.S_IFREG)])])
  else none

/-- A tree with the regular file `a`, the empty directory `d` and the block
device `/dev/sda`. -/
def tree_flat : String → Option Node := fun p =>
  if p = "a" then some (Node.file FileType.S_IFREG)
  else if p = "d" then some (Node.dir [])
  else if p = "/dev/sda" then some (Node.file FileType.S_IFBLK)
  else none

/-- A matcher for patterns without special characters: such a pattern matches
exactly itself. -/
def fnmatch_literal (pattern path : String) (_ : Int) : Int :=
  if pattern = path then 0 else FNM_NOMATCH

/-- A matcher that cannot use any pattern for comparison: it reports neither
'match' (0) nor 'no match' (`FNM_NOMATCH`). -/
def fnmatch_unusable (_ _ : String) (_ : Int) : Int := 2

/-- The options without pattern and without predicate. -/
def no_filter : File_list_options := ⟨"", none, false, Compression.none⟩

/-- The options with the pattern `r/a.txt` and a predicate accepting all. -/
def only_a_txt : File_list_options :=
  ⟨"r/a.txt", some (some (fun _ => true)), false, Compression.none⟩

/-- The options with the pattern `[` and no predicate. -/
def bracket_pattern : File_list_options := ⟨"[", none, false, Compression.none⟩

/-- The entries `fts_read` returns for the root `r` of `tree_nested`. -/
def reads_nested : List FtsRead :=
  [⟨⟨FtsInfo.FTS_D, "r", "r", FileType.S_IFDIR⟩, 0⟩,
   ⟨⟨FtsInfo.FTS_D, "r/a", "a", FileType.S_IFDIR⟩, 0⟩,
   ⟨⟨FtsInfo.FTS_F, "r/a/x", "x", FileType.S_IFREG⟩, 0⟩,
   ⟨⟨FtsInfo.FTS_DP, "r/a", "a", FileType.S_IFDIR⟩, 0⟩,
   ⟨⟨FtsInfo.FTS_F, "r/a.txt", "a.txt", FileType.S_IFREG⟩, 0⟩,
   ⟨⟨FtsInfo.FTS_DP, "r", "r", FileType.S_IFDIR⟩, 0⟩]

/-- The C library over `tree_nested` with the literal matcher. -/
def libc_nested : Libc := ⟨fts_open_model tree_nested 3, fnmatch_literal⟩

/-- The C library over `tree_flat` with the literal matcher. -/
def libc_flat : Libc := ⟨fts_open_model tree_flat 3, fnmatch_literal⟩

/-- The C library over `tree_flat` with the matcher that cannot use any
pattern. -/
def libc_unusable : Libc := ⟨fts_open_model tree_flat 3, fnmatch_unusable⟩

/-- The parameters of a pipeline with three shards (batch size 10, no skip,
no bound, keep-partial). -/
def three_shards : data_reader_params := ⟨10, 0, none, 0, 3, last_batch_handling.keep⟩

/-- A stream of ten instances. -/
def ten_instances : List Nat := [100, 101, 102, 103, 104, 105, 106, 107, 108, 109]

/-- The parameters with batch size 10 and the given last-batch policy. -/
def batch_of_ten (p : last_batch_handling) : data_reader_params := ⟨10, 0, none, 0, 1, p⟩

/-- A stream of 23 instances. -/
def stream_23 : List Nat := List.range 23

/-- The parameters with batch size 2 and four instances to skip. -/
def skip_four : data_reader_params := ⟨2, 4, none, 0, 1, last_batch_handling.keep⟩

theorem visit_predicate_cases (opts : File_list_options) (path : String) (c : List Call) :
    (predicate_accepts opts path ∧
      ((visit_predicate opts path c = Visited.emplace (make_file opts path) c ∧
          ∀ p, opts.predicate ≠ some (some p)) ∨
       visit_predicate opts path c =
          Visited.emplace (make_file opts path) (c ++ [Call.predicate path]))) ∨
    (¬ predicate_accepts opts path ∧
      visit_predicate opts path c = Visited.skip (c ++ [Call.predicate path])) := by
  unfold visit_predicate predicate_accepts make_file
  rcases h : opts.predicate with _ | _ | p
  · simp
  · simp
  · by_cases hp : p path = true <;> simp [hp]

theorem visit_erroneous (libc : Libc) (opts : File_list_options) (r : FtsRead)
    (h : erroneous r.ent) :
    visit libc opts r = Visited.raise (Error.system_error r.errno
      ("The file or directory '" ++ r.ent.fts_accpath ++ "' cannot be opened.")) [] := by
  unfold erroneous at h
  simp [visit, h]

theorem visit_not_eligible (libc : Libc) (opts : File_list_options) (r : FtsRead)
    (h1 : ¬ erroneous r.ent) (h2 : ¬ eligible r.ent) :
    visit libc opts r = Visited.skip [] := by
  unfold erroneous at h1
  unfold eligible at h2
  unfold visit
  simp only [h1, if_false]
  by_cases hF : r.ent.fts_info = FtsInfo.FTS_F
  · have h3 : ¬ (S_ISREG r.ent.st_mode = true ∨ S_ISBLK r.ent.st_mode = true) :=
      fun h => h2 ⟨hF, h⟩
    rw [not_or] at h3
    simp [hF, h3.1, h3.2]
  · simp [hF]

theorem eligible_not_erroneous (e : FTSENT) (h : eligible e) : ¬ erroneous e := by
  unfold eligible at h
  unfold erroneous
  rw [h.1]
  decide

theorem visit_eligible (libc : Libc) (opts : File_list_options) (r : FtsRead)
    (h : eligible r.ent) :
    visit libc opts r =
      if opts.pattern ≠ "" then
        if libc.fnmatch opts.pattern r.ent.fts_accpath 0 = FNM_NOMATCH then
          Visited.skip [Call.fnmatch opts.pattern r.ent.fts_accpath]
        else if libc.fnmatch opts.pattern r.ent.fts_accpath 0 ≠ 0 then
          Visited.raise (Error.invalid_argument "The pattern cannot be used for comparison.")
            [Call.fnmatch opts.pattern r.ent.fts_accpath]
        else visit_predicate opts r.ent.fts_accpath
          [Call.fnmatch opts.pattern r.ent.fts_accpath]
      else visit_predicate opts r.ent.fts_accpath [] := by
  have h1 := eligible_not_erroneous _ h
  unfold erroneous at h1
  unfold eligible at h
  unfold visit
  simp only [h1, if_false]
  have h3 : (!S_ISREG r.ent.st_mode && !S_ISBLK r.ent.st_mode) = false := by
    rcases h.2 with h | h <;> simp [h]
  simp [h.1, h3]

theorem visit_cases (libc : Libc) (opts : File_list_options) (r : FtsRead) :
    (erroneous r.ent ∧ visit libc opts r = Visited.raise (Error.system_error r.errno
      ("The file or directory '" ++ r.ent.fts_accpath ++ "' cannot be opened.")) []) ∨
    (¬ erroneous r.ent ∧ ¬ eligible r.ent ∧ visit libc opts r = Visited.skip []) ∨
    (eligible r.ent ∧ ¬ pattern_usable libc opts r.ent.fts_accpath ∧
      visit libc opts r = Visited.raise
        (Error.invalid_argument "The pattern cannot be used for comparison.")
        [Call.fnmatch opts.pattern r.ent.fts_accpath]) ∨
    (eligible r.ent ∧ pattern_usable libc opts r.ent.fts_accpath ∧
      ¬ pattern_accepts libc opts r.ent.fts_accpath ∧
      visit libc opts r = Visited.skip [Call.fnmatch opts.pattern r.ent.fts_accpath]) ∨
    (eligible r.ent ∧ pattern_accepts libc opts r.ent.fts_accpath ∧
      ¬ predicate_accepts opts r.ent.fts_accpath ∧
      visit libc opts r = Visited.skip
        (pattern_calls opts r.ent.fts_accpath ++ [Call.predicate r.ent.fts_accpath])) ∨
    (eligible r.ent ∧ pattern_accepts libc opts r.ent.fts_accpath ∧
      predicate_accepts opts r.ent.fts_accpath ∧
      ((visit libc opts r = Visited.emplace (make_file opts r.ent.fts_accpath)
          (pattern_calls opts r.ent.fts_accpath) ∧ ∀ p, opts.predicate ≠ some (some p)) ∨
        visit libc opts r = Visited.emplace (make_file opts r.ent.fts_accpath)
          (pattern_calls opts r.ent.fts_accpath ++ [Call.predicate r.ent.fts_accpath]))) := by
  by_cases he : erroneous r.ent
  · exact Or.inl ⟨he, visit_erroneous libc opts r he⟩
  by_cases hel : eligible r.ent
  swap
  · exact Or.inr (Or.inl ⟨he, hel, visit_not_eligible libc opts r he hel⟩)
  right; right
  rw [visit_eligible libc opts r hel]
  unfold pattern_usable pattern_accepts pattern_calls
  by_cases hp : opts.pattern = ""
  · simp only [hp, ne_eq, not_true_eq_false, if_false, true_or, not_true_eq_false,
      false_and, and_false, false_or, true_and, List.nil_append]
    have := visit_predicate_cases opts r.ent.fts_accpath []
    simp only [List.nil_append, hp] at this ⊢
    rcases this with ⟨h1, h2⟩ | ⟨h1, h2⟩
    · exact Or.inr ⟨hel, h1, h2⟩
    · exact Or.inl ⟨hel, h1, h2⟩
  · simp only [ne_eq, hp, not_false_eq_true, if_true, false_or]
    by_cases h1 : libc.fnmatch opts.pattern r.ent.fts_accpath 0 = FNM_NOMATCH
    · have h0 : ¬ libc.fnmatch opts.pattern r.ent.fts_accpath 0 = 0 := by
        rw [h1]; decide
      simp [h1, hel]
      decide
    · by_cases h0 : libc.fnmatch opts.pattern r.ent.fts_accpath 0 = 0
      · simp only [h1, h0, if_false, not_true_eq_false, true_or, not_true_eq_false,
          false_and, and_false, false_or, true_and, not_false_eq_true]
        have := visit_predicate_cases opts r.ent.fts_accpath
          [Call.fnmatch opts.pattern r.ent.fts_accpath]
        rcases this with ⟨h1, h2⟩ | ⟨h1, h2⟩
        · exact Or.inr ⟨hel, h1, h2⟩
        · exact Or.inl ⟨hel, h1, h2⟩
      · simp [h1, h0, hel]

theorem loop_append_ok (libc : Libc) (opts : File_list_options) (rest : List FtsRead) :
    ∀ (pre : List FtsRead) (res : List File) (log : List Call) (res1 : List File)
      (log1 : List Call),
      list_files_loop libc opts pre res log = (Except.ok res1, log1) →
      list_files_loop libc opts (pre ++ rest) res log =
        list_files_loop libc opts rest res1 log1 := by
  intro pre
  induction pre with
  | nil =>
    intro res log res1 log1 h
    simp only [list_files_loop, Prod.mk.injEq, Except.ok.injEq] at h
    simp [h.1, h.2]
  | cons r rs ih =>
    intro res log res1 log1 h
    simp only [List.cons_append, list_files_loop] at h ⊢
    cases hv : visit libc opts r with
    | raise e c => simp [hv] at h
    | skip c => simp only [hv] at h ⊢; exact ih _ _ _ _ h
    | emplace f c => simp only [hv] at h ⊢; exact ih _ _ _ _ h

theorem loop_append_error (libc : Libc) (opts : File_list_options) (rest : List FtsRead) :
    ∀ (pre : List FtsRead) (res : List File) (log : List Call) (e : Error)
      (log1 : List Call),
      list_files_loop libc opts pre res log = (Except.error e, log1) →
      list_files_loop libc opts (pre ++ rest) res log = (Except.error e, log1) := by
  intro pre
  induction pre with
  | nil => intro res log e log1 h; simp [list_files_loop] at h
  | cons r rs ih =>
    intro res log e log1 h
    simp only [List.cons_append, list_files_loop] at h ⊢
    cases hv : visit libc opts r with
    | raise e c => simpa [hv] using h
    | skip c => simp only [hv] at h ⊢; exact ih _ _ _ _ h
    | emplace f c => simp only [hv] at h ⊢; exact ih _ _ _ _ h

theorem loop_ok_result (libc : Libc) (opts : File_list_options) :
    ∀ (reads : List FtsRead) (res : List File) (log : List Call) (out : List File)
      (log1 : List Call),
      list_files_loop libc opts reads res log = (Except.ok out, log1) →
      out = res ++ (reads.filter (fun r => decide (contributes libc opts r))).map
        (fun r => make_file opts r.ent.fts_accpath) ∧
      (∀ r ∈ reads, ¬ erroneous r.ent) ∧
      (∀ r ∈ reads, eligible r.ent → pattern_usable libc opts r.ent.fts_accpath) := by
  intro reads
  induction reads with
  | nil =>
    intro res log out log1 h
    simp only [list_files_loop, Prod.mk.injEq, Except.ok.injEq] at h
    simp [h.1]
  | cons r rs ih =>
    intro res log out log1 h
    simp only [list_files_loop] at h
    have hc := visit_cases libc opts r
    have pu_of_pa : pattern_accepts libc opts r.ent.fts_accpath →
        pattern_usable libc opts r.ent.fts_accpath := by
      unfold pattern_accepts pattern_usable
      rintro (h | h)
      · exact Or.inl h
      · exact Or.inr (Or.inl h)
    rcases hc with ⟨_, hv⟩ | ⟨h1, h2, hv⟩ | ⟨_, _, hv⟩ | ⟨h1, h2, h3, hv⟩ | ⟨h1, h2, h3, hv⟩ |
      ⟨h1, h2, h3, hv⟩
    · simp [hv] at h
    · rw [hv] at h
      obtain ⟨ha, hb, hc⟩ := ih _ _ _ _ h
      have hnc : ¬ contributes libc opts r := fun hh => h2 hh.1
      refine ⟨by simpa [List.filter_cons, hnc] using ha, ?_, ?_⟩
      · intro x hx
        rcases List.mem_cons.1 hx with rfl | hx
        · exact h1
        · exact hb x hx
      · intro x hx hel
        rcases List.mem_cons.1 hx with rfl | hx
        · exact absurd hel h2
        · exact hc x hx hel
    · simp [hv] at h
    · rw [hv] at h
      obtain ⟨ha, hb, hc⟩ := ih _ _ _ _ h
      have hnc : ¬ contributes libc opts r := fun hh => h3 hh.2.1
      refine ⟨by simpa [List.filter_cons, hnc] using ha, ?_, ?_⟩
      · intro x hx
        rcases List.mem_cons.1 hx with rfl | hx
        · exact eligible_not_erroneous _ h1
        · exact hb x hx
      · intro x hx hel
        rcases List.mem_cons.1 hx with rfl | hx
        · exact h2
        · exact hc x hx hel
    · rw [hv] at h
      obtain ⟨ha, hb, hc⟩ := ih _ _ _ _ h
      have hnc : ¬ contributes libc opts r := fun hh => h3 hh.2.2
      refine ⟨by simpa [List.filter_cons, hnc] using ha, ?_, ?_⟩
      · intro x hx
        rcases List.mem_cons.1 hx with rfl | hx
        · exact eligible_not_erroneous _ h1
        · exact hb x hx
      · intro x hx hel
        rcases List.mem_cons.1 hx with rfl | hx
        · exact pu_of_pa h2
        · exact hc x hx hel
    · have hcon : contributes libc opts r := ⟨h1, h2, h3⟩
      have key : ∀ c, list_files_loop libc opts rs
          (res ++ [make_file opts r.ent.fts_accpath]) (log ++ c) = (Except.ok out, log1) →
          out = res ++ ((r :: rs).filter (fun r => decide (contributes libc opts r))).map
            (fun r => make_file opts r.ent.fts_accpath) ∧
          (∀ x ∈ r :: rs, ¬ erroneous x.ent) ∧
          (∀ x ∈ r :: rs, eligible x.ent → pattern_usable libc opts x.ent.fts_accpath) := by
        intro c h
        obtain ⟨ha, hb, hc⟩ := ih _ _ _ _ h
        refine ⟨by simpa [List.filter_cons, hcon] using ha, ?_, ?_⟩
        · intro x hx
          rcases List.mem_cons.1 hx with rfl | hx
          · exact eligible_not_erroneous _ h1
          · exact hb x hx
        · intro x hx hel
          rcases List.mem_cons.1 hx with rfl | hx
          · exact pu_of_pa h2
          · exact hc x hx hel
      rcases hv with ⟨hv, _⟩ | hv
      · rw [hv] at h; exact key _ h
      · rw [hv] at h; exact key _ h

theorem loop_ok_of_usable (libc : Libc) (opts : File_list_options) :
    ∀ (reads : List FtsRead) (res : List File) (log : List Call),
      (∀ r ∈ reads, ¬ erroneous r.ent) →
      (∀ r ∈ reads, eligible r.ent → pattern_usable libc opts r.ent.fts_accpath) →
      (list_files_loop libc opts reads res log).1 =
        Except.ok (res ++ (reads.filter (fun r => decide (contributes libc opts r))).map
          (fun r => make_file opts r.ent.fts_accpath)) := by
  intro reads
  induction reads with
  | nil => intro res log _ _; simp [list_files_loop]
  | cons r rs ih =>
    intro res log h1 h2
    have ih1 := fun res log => ih res log (fun x hx => h1 x (List.mem_cons_of_mem _ hx))
      (fun x hx => h2 x (List.mem_cons_of_mem _ hx))
    have hne := h1 r (List.mem_cons_self _ _)
    have hus := h2 r (List.mem_cons_self _ _)
    simp only [list_files_loop]
    rcases visit_cases libc opts r with ⟨g, _⟩ | ⟨_, g2, hv⟩ | ⟨g1, g2, _⟩ | ⟨_, _, g3, hv⟩ |
      ⟨_, _, g3, hv⟩ | ⟨g1, g2, g3, hv⟩
    · exact absurd g hne
    · have hnc : ¬ contributes libc opts r := fun hh => g2 hh.1
      rw [hv]; simp only [ih1, List.filter_cons, hnc, decide_False]; simp
    · exact absurd (hus g1) g2
    · have hnc : ¬ contributes libc opts r := fun hh => g3 hh.2.1
      rw [hv]; simp only [ih1, List.filter_cons, hnc, decide_False]; simp
    · have hnc : ¬ contributes libc opts r := fun hh => g3 hh.2.2
      rw [hv]; simp only [ih1, List.filter_cons, hnc, decide_False]; simp
    · have hcon : contributes libc opts r := ⟨g1, g2, g3⟩
      rcases hv with ⟨hv, _⟩ | hv <;>
      · rw [hv]; simp only [ih1, List.filter_cons, hcon, decide_True]; simp

theorem loop_log_invariant (libc : Libc) (opts : File_list_options) (P : List Call → Prop)
    (hstep : ∀ l r, P l → P (l ++ (visit libc opts r).calls)) :
    ∀ (reads : List FtsRead) (res : List File) (log : List Call),
      P log → P (list_files_loop libc opts reads res log).2 := by
  intro reads
  induction reads with
  | nil => intro res log h; simpa [list_files_loop] using h
  | cons r rs ih =>
    intro res log h
    have hs := hstep log r h
    simp only [list_files_loop]
    cases hv : visit libc opts r with
    | raise e c => simpa [hv, Visited.calls] using hs
    | skip c => rw [hv] at hs; exact ih _ _ hs
    | emplace f c => rw [hv] at hs; exact ih _ _ hs

theorem traced_log_invariant (libc : Libc) (opts : File_list_options) (paths : List String)
    (P : List Call → Prop) (h0 : P [])
    (hstep : ∀ l r, P l → P (l ++ (visit libc opts r).calls)) :
    P (list_files_traced libc paths opts).2 := by
  unfold list_files_traced
  cases libc.fts_open paths natural_sort with
  | open_failed errno => exact h0
  | opened reads end_errno =>
    exact loop_log_invariant libc opts P hstep reads [] [] h0

theorem visit_calls_cases (libc : Libc) (opts : File_list_options) (r : FtsRead) :
    (visit libc opts r).calls = [] ∨
    (opts.pattern ≠ "" ∧
      (visit libc opts r).calls = [Call.fnmatch opts.pattern r.ent.fts_accpath]) ∨
    (opts.pattern ≠ "" ∧ pattern_accepts libc opts r.ent.fts_accpath ∧
      (visit libc opts r).calls =
        [Call.fnmatch opts.pattern r.ent.fts_accpath, Call.predicate r.ent.fts_accpath]) ∨
    (opts.pattern = "" ∧
      (visit libc opts r).calls = [Call.predicate r.ent.fts_accpath]) := by
  have hpc : opts.pattern ≠ "" →
      pattern_calls opts r.ent.fts_accpath = [Call.fnmatch opts.pattern r.ent.fts_accpath] := by
    intro h; simp [pattern_calls, h]
  have hpc0 : opts.pattern = "" → pattern_calls opts r.ent.fts_accpath = [] := by
    intro h; simp [pattern_calls, h]
  have hpne : ¬ pattern_accepts libc opts r.ent.fts_accpath → opts.pattern ≠ "" := by
    intro h h1; exact h (Or.inl h1)
  have hune : ¬ pattern_usable libc opts r.ent.fts_accpath → opts.pattern ≠ "" := by
    intro h h1; exact h (Or.inl h1)
  by_cases hp : opts.pattern = ""
  · rcases visit_cases libc opts r with ⟨_, hv⟩ | ⟨_, _, hv⟩ | ⟨_, g, _⟩ | ⟨_, _, g, _⟩ |
      ⟨_, _, _, hv⟩ | ⟨_, _, _, ⟨hv, _⟩ | hv⟩
    · simp [hv, Visited.calls]
    · simp [hv, Visited.calls]
    · exact absurd hp (hune g)
    · exact absurd hp (hpne g)
    · simp [hv, Visited.calls, hpc0 hp, hp]
    · simp [hv, Visited.calls, hpc0 hp]
    · simp [hv, Visited.calls, hpc0 hp, hp]
  · rcases visit_cases libc opts r with ⟨_, hv⟩ | ⟨_, _, hv⟩ | ⟨_, _, hv⟩ | ⟨_, _, _, hv⟩ |
      ⟨_, g, _, hv⟩ | ⟨_, g, _, ⟨hv, _⟩ | hv⟩
    · simp [hv, Visited.calls]
    · simp [hv, Visited.calls]
    · simp [hv, Visited.calls, hp]
    · simp [hv, Visited.calls, hp]
    · simp [hv, Visited.calls, hpc hp, hp, g]
    · simp [hv, Visited.calls, hpc hp, hp]
    · simp [hv, Visited.calls, hpc hp, hp, g]

theorem predicate_call_accepted (libc : Libc) (opts : File_list_options)
    (paths : List String) (path : String)
    (h : Call.predicate path ∈ (list_files_traced libc paths opts).2) :
    pattern_accepts libc opts path := by
  refine traced_log_invariant libc opts paths
    (fun l => Call.predicate path ∈ l → pattern_accepts libc opts path) (by simp) ?_ h
  intro l r hl hmem
  rcases List.mem_append.1 hmem with hm | hm
  · exact hl hm
  · rcases visit_calls_cases libc opts r with hc | ⟨_, hc⟩ | ⟨_, ha, hc⟩ | ⟨hp, hc⟩
    · simp [hc] at hm
    · simp [hc] at hm
    · simp only [hc, List.mem_cons, List.mem_singleton, Call.predicate.injEq,
        List.not_mem_nil, or_false, false_or] at hm
      rcases hm with hm | hm
      · exact absurd hm (by simp)
      · exact hm ▸ ha
    · exact Or.inl hp

theorem predicate_call_preceded (libc : Libc) (opts : File_list_options)
    (paths : List String) (hp : opts.pattern ≠ "") (path : String) (l1 l2 : List Call)
    (h : (list_files_traced libc paths opts).2 = l1 ++ Call.predicate path :: l2) :
    ∃ l0, l1 = l0 ++ [Call.fnmatch opts.pattern path] := by
  refine traced_log_invariant libc opts paths
    (fun l => ∀ l1 l2, l = l1 ++ Call.predicate path :: l2 →
      ∃ l0, l1 = l0 ++ [Call.fnmatch opts.pattern path]) (by simp) ?_ l1 l2 h
  intro l r hl m1 m2 heq
  rcases visit_calls_cases libc opts r with hc | ⟨_, hc⟩ | ⟨_, _, hc⟩ | ⟨hp0, _⟩
  · rw [hc, List.append_nil] at heq; exact hl _ _ heq
  · rw [hc] at heq
    rcases List.append_eq_append_iff.1 heq with ⟨a, h1, h2⟩ | ⟨c, h1, h2⟩
    · rcases a with _ | ⟨x, a⟩
      · simp at h2
      · simp at h2
    · rcases c with _ | ⟨x, c⟩
      · simp at h2
      · simp only [List.cons_append, List.cons.injEq] at h2
        obtain ⟨rfl, _⟩ := h2
        exact hl _ _ h1
  · rw [hc] at heq
    rcases List.append_eq_append_iff.1 heq with ⟨a, h1, h2⟩ | ⟨c, h1, h2⟩
    · rcases a with _ | ⟨x, _ | ⟨y, a⟩⟩
      · simp at h2
      · simp only [List.cons_append, List.nil_append, List.cons.injEq,
          Call.predicate.injEq] at h2
        obtain ⟨rfl, rfl, _⟩ := h2
        exact ⟨l, h1⟩
      · simp at h2
    · rcases c with _ | ⟨x, c⟩
      · simp at h2
      · simp only [List.cons_append, List.cons.injEq] at h2
        obtain ⟨rfl, _⟩ := h2
        exact hl _ _ h1
  · exact absurd hp0 hp

theorem list_files_opened (libc : Libc) (opts : File_list_options) (paths : List String)
    (reads : List FtsRead) (end_errno : Nat)
    (h : libc.fts_open paths natural_sort = FtsStream.opened reads end_errno) :
    list_files libc paths opts =
      match (list_files_loop libc opts reads [] []).1 with
      | Except.error e => Except.error e
      | Except.ok result =>
        if end_errno ≠ 0 then
          Except.error (Error.system_error end_errno "The specified paths cannot be traversed.")
        else Except.ok result := by
  simp [list_files, list_files_traced, h]

theorem list_files_ok_loop (libc : Libc) (opts : File_list_options) (paths : List String)
    (reads : List FtsRead) (end_errno : Nat) (res : List File)
    (h : libc.fts_open paths natural_sort = FtsStream.opened reads end_errno)
    (hres : list_files libc paths opts = Except.ok res) :
    list_files_loop libc opts reads [] [] =
      (Except.ok res, (list_files_loop libc opts reads [] []).2) ∧ end_errno = 0 := by
  rw [list_files_opened libc opts paths reads end_errno h] at hres
  rcases hl : list_files_loop libc opts reads [] [] with ⟨x, log⟩
  rw [hl] at hres
  cases x with
  | error e => simp at hres
  | ok result =>
    by_cases he : end_errno = 0
    · simp [he] at hres
      simp [hres, he]
    · simp [he] at hres

theorem list_files_ok_exact (libc : Libc) (opts : File_list_options) (paths : List String)
    (reads : List FtsRead) (end_errno : Nat) (res : List File)
    (h : libc.fts_open paths natural_sort = FtsStream.opened reads end_errno)
    (hres : list_files libc paths opts = Except.ok res) :
    res = (reads.filter (fun r => decide (contributes libc opts r))).map
        (fun r => make_file opts r.ent.fts_accpath) ∧
      (∀ r ∈ reads, ¬ erroneous r.ent) := by
  have h1 := (list_files_ok_loop libc opts paths reads end_errno res h hres).1
  have h2 := loop_ok_result libc opts reads [] [] res _ h1
  exact ⟨by simpa using h2.1, h2.2.1⟩

theorem list_files_ok_opened (libc : Libc) (opts : File_list_options) (paths : List String)
    (res : List File) (hres : list_files libc paths opts = Except.ok res) :
    ∃ reads, libc.fts_open paths natural_sort = FtsStream.opened reads 0 := by
  cases h : libc.fts_open paths natural_sort with
  | open_failed errno => simp [list_files, list_files_traced, h] at hres
  | opened reads end_errno =>
    have := (list_files_ok_loop libc opts paths reads end_errno res h hres).2
    exact ⟨reads, by rw [this]⟩

/-! ## The claims on `list_files` -/

/-- C2 (as stated, refuted): over the tree `r/a.txt`, `r/a/x` the function
`list_files` returns `r/a/x` before `r/a.txt`, although the full path `r/a/x`
compares greater than `r/a.txt` in natural order: the comparator orders the
entries of one directory by name (`a` before `a.txt`), and `r/a/x` is listed
with its directory. -/
theorem list_files_not_sorted_by_full_path :
    list_files ⟨fts_open_model tree_nested 3, fnmatch_literal⟩ ["r"] no_filter =
      Except.ok [⟨"r/a/x", false, Compression.none⟩, ⟨"r/a.txt", false, Compression.none⟩] ∧
    strnatcmp "r/a/x" "r/a.txt" > 0 ∧ strnatcmp "a" "a.txt" < 0 := by
  refine ⟨by rfl, by decide, by decide⟩

/-- C2 (amended): the data sources returned by `list_files` are in the order
in which the traversal, opened with the comparator `natural_sort` (natural
order of the entry names `fts_name`), delivers their entries: the result is
the sequence of the contributing entries of the walk, in the order of the
walk. -/
theorem list_files_in_visit_order (libc : Libc) (paths : List String)
    (opts : File_list_options) (res : List File)
    (hres : list_files libc paths opts = Except.ok res) :
    ∃ reads, libc.fts_open paths natural_sort = FtsStream.opened reads 0 ∧
      res = (reads.filter (fun r => decide (contributes libc opts r))).map
        (fun r => make_file opts r.ent.fts_accpath) ∧
      List.Sublist (res.map File.path) (reads.map (fun r => r.ent.fts_accpath)) := by
  obtain ⟨reads, hopen⟩ := list_files_ok_opened libc opts paths res hres
  have h := (list_files_ok_exact libc opts paths reads 0 res hopen hres).1
  refine ⟨reads, hopen, h, ?_⟩
  rw [h, List.map_map]
  have : ((fun r => File.path r) ∘ fun (r : FtsRead) => make_file opts r.ent.fts_accpath) =
      fun r => r.ent.fts_accpath := by
    funext r; simp [make_file]
  rw [this]
  exact List.Sublist.map _ (List.filter_sublist _)

/-- Witness of C2 (amended) on the tree `r/a.txt`, `r/a/x`. -/
theorem list_files_in_visit_order_witness :
    list_files ⟨fts_open_model tree_nested 3, fnmatch_literal⟩ ["r"] no_filter =
      Except.ok [⟨"r/a/x", false, Compression.none⟩, ⟨"r/a.txt", false, Compression.none⟩] ∧
    ∃ reads, fts_open_model tree_nested 3 ["r"] natural_sort = FtsStream.opened reads 0 ∧
      [(⟨"r/a/x", false, Compression.none⟩ : File), ⟨"r/a.txt", false, Compression.none⟩] =
        (reads.filter (fun r => decide
          (contributes ⟨fts_open_model tree_nested 3, fnmatch_literal⟩ no_filter r))).map
          (fun r => make_file no_filter r.ent.fts_accpath) ∧
      List.Sublist
        (([(⟨"r/a/x", false, Compression.none⟩ : File),
          ⟨"r/a.txt", false, Compression.none⟩]).map File.path)
        (reads.map (fun r => r.ent.fts_accpath)) :=
  ⟨by rfl,
    list_files_in_visit_order ⟨fts_open_model tree_nested 3, fnmatch_literal⟩ ["r"] no_filter
      [⟨"r/a/x", false, Compression.none⟩, ⟨"r/a.txt", false, Compression.none⟩] (by rfl)⟩

/-- C3: when `list_files` returns, a data source for an eligible entry of the
walk is in the result if and only if the pattern accepts the entry's path
(the pattern is empty or the glob match succeeds) and the predicate accepts it
(absent, null, or true on the path); the predicate is only ever called on a
path the pattern accepts, and with a non-empty pattern every call of the
predicate directly follows the glob match of the same path; with neither a
pattern nor a predicate every eligible entry is included. -/
theorem list_files_includes_iff (libc : Libc) (paths : List String)
    (opts : File_list_options) (reads : List FtsRead) (end_errno : Nat) (res : List File)
    (hopen : libc.fts_open paths natural_sort = FtsStream.opened reads end_errno)
    (hres : list_files libc paths opts = Except.ok res) :
    (∀ r ∈ reads, eligible r.ent →
      (make_file opts r.ent.fts_accpath ∈ res ↔
        pattern_accepts libc opts r.ent.fts_accpath ∧
          predicate_accepts opts r.ent.fts_accpath)) ∧
    (∀ path, Call.predicate path ∈ (list_files_traced libc paths opts).2 →
      pattern_accepts libc opts path) ∧
    (opts.pattern ≠ "" → ∀ path l1 l2,
      (list_files_traced libc paths opts).2 = l1 ++ Call.predicate path :: l2 →
      ∃ l0, l1 = l0 ++ [Call.fnmatch opts.pattern path]) ∧
    (opts.pattern = "" → (∀ p, opts.predicate ≠ some (some p)) →
      ∀ r ∈ reads, eligible r.ent → make_file opts r.ent.fts_accpath ∈ res) := by
  have hex := (list_files_ok_exact libc opts paths reads end_errno res hopen hres).1
  have hiff : ∀ r ∈ reads, eligible r.ent →
      (make_file opts r.ent.fts_accpath ∈ res ↔
        pattern_accepts libc opts r.ent.fts_accpath ∧
          predicate_accepts opts r.ent.fts_accpath) := by
    intro r hr hel
    rw [hex]
    constructor
    · intro hm
      obtain ⟨x, hx, hxe⟩ := List.mem_map.1 hm
      have hc : contributes libc opts x := by simpa using (List.mem_filter.1 hx).2
      have hp : x.ent.fts_accpath = r.ent.fts_accpath := by
        simpa [make_file] using hxe
      rw [← hp]
      exact hc.2
    · intro hacc
      refine List.mem_map.2 ⟨r, List.mem_filter.2 ⟨hr, ?_⟩, rfl⟩
      simpa using (⟨hel, hacc⟩ : contributes libc opts r)
  refine ⟨hiff, fun path h => predicate_call_accepted libc opts paths path h,
    fun hp path l1 l2 h => predicate_call_preceded libc opts paths hp path l1 l2 h, ?_⟩
  intro hp hpred r hr hel
  refine (hiff r hr hel).2 ⟨Or.inl hp, ?_⟩
  unfold predicate_accepts
  split
  · next p h => exact absurd h (hpred p)
  · trivial

/-- Witness of C3 on the tree `r/a.txt`, `r/a/x` with the pattern `r/a.txt`
and a predicate. -/
theorem list_files_includes_iff_witness :
    libc_nested.fts_open ["r"] natural_sort = FtsStream.opened reads_nested 0 ∧
    list_files libc_nested ["r"] only_a_txt =
      Except.ok [⟨"r/a.txt", false, Compression.none⟩] ∧
    ((∀ r ∈ reads_nested, eligible r.ent →
      (make_file only_a_txt r.ent.fts_accpath ∈
          [(⟨"r/a.txt", false, Compression.none⟩ : File)] ↔
        pattern_accepts libc_nested only_a_txt r.ent.fts_accpath ∧
          predicate_accepts only_a_txt r.ent.fts_accpath)) ∧
    (∀ path, Call.predicate path ∈ (list_files_traced libc_nested ["r"] only_a_txt).2 →
      pattern_accepts libc_nested only_a_txt path) ∧
    (only_a_txt.pattern ≠ "" → ∀ path l1 l2,
      (list_files_traced libc_nested ["r"] only_a_txt).2 =
        l1 ++ Call.predicate path :: l2 →
      ∃ l0, l1 = l0 ++ [Call.fnmatch only_a_txt.pattern path]) ∧
    (only_a_txt.pattern = "" → (∀ p, only_a_txt.predicate ≠ some (some p)) →
      ∀ r ∈ reads_nested, eligible r.ent →
        make_file only_a_txt r.ent.fts_accpath ∈
          [(⟨"r/a.txt", false, Compression.none⟩ : File)])) :=
  ⟨by rfl, by rfl,
    list_files_includes_iff libc_nested ["r"] only_a_txt reads_nested 0
      [⟨"r/a.txt", false, Compression.none⟩] (by rfl) (by rfl)⟩

/-- C6: enumeration is all-or-nothing. When the walk holds an entry reported
as erroneous, as an unreadable directory or as lacking stat information,
`list_files` returns no list. The entry is visited (the loop gets through the
entries before it without an exception) exactly when no entry before it is
erroneous and the pattern can be compared with every eligible entry before it;
then the data sources collected from the entries before it are discarded and
`list_files` fails with the system error that carries `errno` and a message
naming the entry's path. -/
theorem list_files_all_or_nothing (libc : Libc) (paths : List String)
    (opts : File_list_options) (before : List FtsRead) (r : FtsRead) (after : List FtsRead)
    (end_errno : Nat)
    (hopen : libc.fts_open paths natural_sort =
      FtsStream.opened (before ++ r :: after) end_errno)
    (herr : erroneous r.ent) :
    (∀ res, list_files libc paths opts ≠ Except.ok res) ∧
    (((∀ x ∈ before, ¬ erroneous x.ent) ∧
        (∀ x ∈ before, eligible x.ent → pattern_usable libc opts x.ent.fts_accpath)) ↔
      ∃ collected, (list_files_loop libc opts before [] []).1 = Except.ok collected) ∧
    ((∀ x ∈ before, ¬ erroneous x.ent) →
      (∀ x ∈ before, eligible x.ent → pattern_usable libc opts x.ent.fts_accpath) →
      (list_files_loop libc opts before [] []).1 =
        Except.ok ((before.filter (fun x => decide (contributes libc opts x))).map
          (fun x => make_file opts x.ent.fts_accpath)) ∧
      list_files libc paths opts = Except.error (Error.system_error r.errno
        ("The file or directory '" ++ r.ent.fts_accpath ++ "' cannot be opened."))) := by
  have hok : (∀ x ∈ before, ¬ erroneous x.ent) →
      (∀ x ∈ before, eligible x.ent → pattern_usable libc opts x.ent.fts_accpath) →
      (list_files_loop libc opts before [] []).1 =
        Except.ok ((before.filter (fun x => decide (contributes libc opts x))).map
          (fun x => make_file opts x.ent.fts_accpath)) := by
    intro hbefore husable
    have hc := loop_ok_of_usable libc opts before [] [] hbefore husable
    rw [List.nil_append] at hc
    exact hc
  refine ⟨?_, ⟨fun h => ⟨_, hok h.1 h.2⟩, ?_⟩, ?_⟩
  · intro res hres
    have h := (list_files_ok_exact libc opts paths _ end_errno res hopen hres).2
    exact h r (by simp) herr
  · rintro ⟨collected, hc⟩
    have hpair : list_files_loop libc opts before [] [] =
        (Except.ok collected, (list_files_loop libc opts before [] []).2) := by
      rw [← hc]
    have h := loop_ok_result libc opts before [] [] collected _ hpair
    exact ⟨h.2.1, h.2.2⟩
  · intro hbefore husable
    have hc := hok hbefore husable
    refine ⟨hc, ?_⟩
    have hpair : list_files_loop libc opts before [] [] =
        (Except.ok ((before.filter (fun x => decide (contributes libc opts x))).map
          (fun x => make_file opts x.ent.fts_accpath)),
          (list_files_loop libc opts before [] []).2) := by
      rw [← hc]
    rw [list_files_opened libc opts paths _ end_errno hopen,
      loop_append_ok libc opts (r :: after) before [] [] _ _ hpair]
    simp [list_files_loop, visit_erroneous libc opts r herr]

/-- Witness of C6: the roots `a` (a regular file, which contributes a data
source) and `zz` (missing): the collected source is discarded and the system
error names `zz`. -/
theorem list_files_all_or_nothing_witness :
    libc_flat.fts_open ["a", "zz"] natural_sort =
      FtsStream.opened ([⟨⟨FtsInfo.FTS_F, "a", "a", FileType.S_IFREG⟩, 0⟩] ++
        ⟨⟨FtsInfo.FTS_NS, "zz", "zz", FileType.S_IFREG⟩, ENOENT⟩ :: []) 0 ∧
    erroneous (⟨FtsInfo.FTS_NS, "zz", "zz", FileType.S_IFREG⟩ : FTSENT) ∧
    (∀ res, list_files libc_flat ["a", "zz"] no_filter ≠ Except.ok res) ∧
    (∀ x ∈ [(⟨⟨FtsInfo.FTS_F, "a", "a", FileType.S_IFREG⟩, 0⟩ : FtsRead)],
      ¬ erroneous x.ent) ∧
    (∀ x ∈ [(⟨⟨FtsInfo.FTS_F, "a", "a", FileType.S_IFREG⟩, 0⟩ : FtsRead)],
      eligible x.ent → pattern_usable libc_flat no_filter x.ent.fts_accpath) ∧
    ((list_files_loop libc_flat no_filter
        [⟨⟨FtsInfo.FTS_F, "a", "a", FileType.S_IFREG⟩, 0⟩] [] []).1 =
      Except.ok (([(⟨⟨FtsInfo.FTS_F, "a", "a", FileType.S_IFREG⟩, 0⟩ : FtsRead)].filter
        (fun x => decide (contributes libc_flat no_filter x))).map
        (fun x => make_file no_filter x.ent.fts_accpath)) ∧
    list_files libc_flat ["a", "zz"] no_filter = Except.error (Error.system_error ENOENT
      ("The file or directory '" ++ "zz" ++ "' cannot be opened."))) ∧
    (list_files_loop libc_flat no_filter
        [⟨⟨FtsInfo.FTS_F, "a", "a", FileType.S_IFREG⟩, 0⟩] [] []).1 =
      Except.ok [⟨"a", false, Compression.none⟩] ∧
    list_files libc_flat ["a", "zz"] no_filter =
      Except.error (Error.system_error 2 "The file or directory 'zz' cannot be opened.") :=
  ⟨by rfl, by decide,
    (list_files_all_or_nothing libc_flat ["a", "zz"] no_filter
      [⟨⟨FtsInfo.FTS_F, "a", "a", FileType.S_IFREG⟩, 0⟩]
      ⟨⟨FtsInfo.FTS_NS, "zz", "zz", FileType.S_IFREG⟩, ENOENT⟩ [] 0 (by rfl) (by decide)).1,
    by decide, by decide,
    (list_files_all_or_nothing libc_flat ["a", "zz"] no_filter
      [⟨⟨FtsInfo.FTS_F, "a", "a", FileType.S_IFREG⟩, 0⟩]
      ⟨⟨FtsInfo.FTS_NS, "zz", "zz", FileType.S_IFREG⟩, ENOENT⟩ [] 0 (by rfl)
      (by decide)).2.2 (by decide) (by decide),
    by rfl, by rfl⟩

/-- C7 (as stated, refuted): over the empty directory `d`, with the non-empty
pattern `[` and a matcher that reports neither 'match' nor 'no match' for it,
`list_files` returns the empty list without any error: the pattern is only
offered to the matcher when the walk reaches a regular file. -/
theorem list_files_unusable_pattern_not_raised :
    bracket_pattern.pattern ≠ "" ∧
    libc_unusable.fnmatch bracket_pattern.pattern "d" 0 ≠ 0 ∧
    libc_unusable.fnmatch bracket_pattern.pattern "d" 0 ≠ FNM_NOMATCH ∧
    list_files libc_unusable ["d"] bracket_pattern = Except.ok [] := by
  refine ⟨by decide, by decide, by decide, by rfl⟩

/-- C7 (amended): with a non-empty pattern, `list_files` fails with the
validation error (invalid argument) when the loop reaches an eligible entry
(the entries before it were processed without an exception) for whose path the
match reports neither 'match' nor 'no match'; when the walk holds no eligible
entry the matcher is never called and no validation error is raised. -/
theorem list_files_pattern_error (libc : Libc) (paths : List String)
    (opts : File_list_options) (reads : List FtsRead) (end_errno : Nat)
    (hopen : libc.fts_open paths natural_sort = FtsStream.opened reads end_errno)
    (hpat : opts.pattern ≠ "") :
    (∀ before r after collected, reads = before ++ r :: after →
      (list_files_loop libc opts before [] []).1 = Except.ok collected →
      eligible r.ent →
      libc.fnmatch opts.pattern r.ent.fts_accpath 0 ≠ 0 →
      libc.fnmatch opts.pattern r.ent.fts_accpath 0 ≠ FNM_NOMATCH →
      list_files libc paths opts =
        Except.error (Error.invalid_argument "The pattern cannot be used for comparison.")) ∧
    ((∀ r ∈ reads, ¬ eligible r.ent) →
      (∀ what, list_files libc paths opts ≠ Except.error (Error.invalid_argument what)) ∧
      (list_files_traced libc paths opts).2 = []) := by
  constructor
  · intro before r after collected hsplit hc hel h0 h1
    have hpair : list_files_loop libc opts before [] [] =
        (Except.ok collected, (list_files_loop libc opts before [] []).2) := by
      rw [← hc]
    rw [list_files_opened libc opts paths _ end_errno hopen, hsplit,
      loop_append_ok libc opts (r :: after) before [] [] collected _ hpair]
    simp [list_files_loop, visit_eligible libc opts r hel, hpat, h0, h1]
  · intro hno
    have hloop : ∀ (l : List FtsRead), (∀ r ∈ l, ¬ eligible r.ent) →
        ∀ res, (∃ out, list_files_loop libc opts l res [] = (Except.ok out, [])) ∨
          (∃ c w, list_files_loop libc opts l res [] =
            (Except.error (Error.system_error c w), [])) := by
      intro l
      induction l with
      | nil => intro _ res; exact Or.inl ⟨res, by simp [list_files_loop]⟩
      | cons x xs ih =>
        intro hx res
        have hxs := ih (fun r hr => hx r (List.mem_cons_of_mem _ hr))
        have hnx := hx x (List.mem_cons_self _ _)
        by_cases he : erroneous x.ent
        · exact Or.inr ⟨x.errno,
            "The file or directory '" ++ x.ent.fts_accpath ++ "' cannot be opened.",
            by simp [list_files_loop, visit_erroneous libc opts x he]⟩
        · simp only [list_files_loop, visit_not_eligible libc opts x he hnx, List.append_nil]
          exact hxs res
    have htr : list_files_traced libc paths opts =
        ((list_files_traced libc paths opts).1, (list_files_loop libc opts reads [] []).2) := by
      simp [list_files_traced, hopen]
    rcases hloop reads hno [] with ⟨out, hl⟩ | ⟨c, w, hl⟩
    · refine ⟨?_, by rw [htr, hl]⟩
      intro what
      rw [list_files_opened libc opts paths _ end_errno hopen, hl]
      by_cases he : end_errno = 0 <;> simp [he]
    · refine ⟨?_, by rw [htr, hl]⟩
      intro what
      rw [list_files_opened libc opts paths _ end_errno hopen, hl]
      simp

/-- Witness of C7 (amended): the root `a` (a regular file), the pattern `[`
and the matcher that cannot use it. -/
theorem list_files_pattern_error_witness :
    libc_unusable.fts_open ["a"] natural_sort =
      FtsStream.opened [⟨⟨FtsInfo.FTS_F, "a", "a", FileType.S_IFREG⟩, 0⟩] 0 ∧
    bracket_pattern.pattern ≠ "" ∧
    ((∀ before r after collected,
      [(⟨⟨FtsInfo.FTS_F, "a", "a", FileType.S_IFREG⟩, 0⟩ : FtsRead)] = before ++ r :: after →
      (list_files_loop libc_unusable bracket_pattern before [] []).1 = Except.ok collected →
      eligible r.ent →
      libc_unusable.fnmatch bracket_pattern.pattern r.ent.fts_accpath 0 ≠ 0 →
      libc_unusable.fnmatch bracket_pattern.pattern r.ent.fts_accpath 0 ≠ FNM_NOMATCH →
      list_files libc_unusable ["a"] bracket_pattern =
        Except.error (Error.invalid_argument "The pattern cannot be used for comparison.")) ∧
    ((∀ r ∈ [(⟨⟨FtsInfo.FTS_F, "a", "a", FileType.S_IFREG⟩, 0⟩ : FtsRead)],
        ¬ eligible r.ent) →
      (∀ what, list_files libc_unusable ["a"] bracket_pattern ≠
        Except.error (Error.invalid_argument what)) ∧
      (list_files_traced libc_unusable ["a"] bracket_pattern).2 = [])) ∧
    list_files libc_unusable ["a"] bracket_pattern =
      Except.error (Error.invalid_argument "The pattern cannot be used for comparison.") :=
  ⟨by rfl, by decide,
    list_files_pattern_error libc_unusable ["a"] bracket_pattern
      [⟨⟨FtsInfo.FTS_F, "a", "a", FileType.S_IFREG⟩, 0⟩] 0 (by rfl) (by decide),
    by rfl⟩

/-- C9 (the code at the failing input): the root `/dev/sda` is a block device,
which `fts` reports with `fts_info = FTS_DEFAULT`; with no pattern and no
predicate `list_files` returns the empty list, so the block device contributes
no data source, although the entry passes the test `S_ISBLK` of line 111. -/
theorem list_files_skips_block_device :
    libc_flat.fts_open ["/dev/sda"] natural_sort =
      FtsStream.opened
        [⟨⟨FtsInfo.FTS_DEFAULT, "/dev/sda", "/dev/sda", FileType.S_IFBLK⟩, 0⟩] 0 ∧
    S_ISBLK FileType.S_IFBLK = true ∧
    list_files libc_flat ["/dev/sda"] no_filter = Except.ok [] := by
  refine ⟨by rfl, by decide, by rfl⟩

/-! ## Properties of the readers -/

theorem take_append_replicate {β : Type} (a : β) :
    ∀ (l : List β) (k m1 m2 : Nat), k ≤ m1 → k ≤ m2 →
      (l ++ List.replicate m1 a).take k = (l ++ List.replicate m2 a).take k := by
  intro l
  induction l with
  | nil =>
    intro k m1 m2 h1 h2
    simp [List.take_replicate, Nat.min_eq_left h1, Nat.min_eq_left h2]
  | cons x l ih =>
    intro k m1 m2 h1 h2
    cases k with
    | zero => simp
    | succ k => simp only [List.cons_append, List.take_succ_cons]; rw [ih k m1 m2 (by omega) (by omega)]

theorem read_n_of_remaining {σ β : Type} (step : σ → Option β × σ)
    (Inv : σ → List β → Prop)
    (hnil : ∀ s, Inv s [] → (step s).1 = none ∧ Inv (step s).2 [])
    (hcons : ∀ s x l, Inv s (x :: l) → (step s).1 = some x ∧ Inv (step s).2 l) :
    ∀ (k : Nat) (s : σ) (l : List β), Inv s l →
      (read_n step k s).1 = (l.map some ++ List.replicate k none).take k ∧
      Inv (read_n step k s).2 (l.drop k) := by
  intro k
  induction k with
  | zero => intro s l h; simpa [read_n] using h
  | succ k ih =>
    intro s l h
    cases l with
    | nil =>
      obtain ⟨h1, h2⟩ := hnil s h
      obtain ⟨h3, h4⟩ := ih _ _ h2
      simp only [read_n, h1, h3]
      refine ⟨?_, by simpa using h4⟩
      simp [List.replicate_succ]
    | cons x l =>
      obtain ⟨h1, h2⟩ := hcons s x l h
      obtain ⟨h3, h4⟩ := ih _ _ h2
      simp only [read_n, h1, h3]
      refine ⟨?_, by simpa using h4⟩
      simp only [List.map_cons, List.cons_append, List.take_succ_cons, List.cons.injEq,
        true_and]
      exact take_append_replicate none _ k k (k + 1) (by omega) (by omega)

theorem reduceOption_map_some {β : Type} (l : List β) : (l.map some).reduceOption = l := by
  induction l with
  | nil => rfl
  | cons x l ih => simp [List.reduceOption_cons_of_some, ih]

theorem reduceOption_replicate_none {β : Type} (k : Nat) :
    (List.replicate k (none : Option β)).reduceOption = [] := by
  induction k with
  | zero => rfl
  | succ k ih => simp [List.replicate_succ, List.reduceOption_cons_of_none, ih]

theorem reduceOption_take_map_some {β : Type} (l : List β) (k : Nat) (h : l.length ≤ k) :
    ((l.map some ++ List.replicate k none).take k).reduceOption = l := by
  rw [List.take_append_eq_append_take, List.reduceOption_append]
  have h1 : (List.map some l).take k = List.map some l := by
    apply List.take_of_length_le; simpa using h
  rw [h1, reduceOption_map_some, List.take_replicate, reduceOption_replicate_none]
  simp

theorem shard_from_eq_filter {α : Type} (n i : Nat) :
    ∀ (xs : List α) (p : Nat),
      shard_from n i p xs =
        ((xs.enumFrom p).filter (fun q => decide (q.1 % n = i))).map Prod.snd := by
  intro xs
  induction xs with
  | nil => intro p; simp [shard_from]
  | cons x xs ih =>
    intro p
    by_cases h : p % n = i
    · simp [shard_from, List.enumFrom, List.filter_cons, h, ih]
    · simp [shard_from, List.enumFrom, List.filter_cons, h, ih]

theorem shard_of_eq_shard_from {α : Type} (n i : Nat) (xs : List α) :
    shard_of n i xs = shard_from n i 0 xs := by
  rw [shard_from_eq_filter]; rfl

theorem pull_matching_spec {α : Type} (prm : data_reader_params) :
    ∀ (rest : List α) (fuel position : Nat) (stream : List α) (reads : Nat),
      rest.length < fuel →
      (shard_from prm.shard_count prm.shard_index position rest = [] ∧
        ∃ p m, sharded_core.pull_matching prm fuel position ⟨stream, rest, reads⟩ =
          (none, p, ⟨stream, [], m⟩)) ∨
      (∃ x p rest1 m,
        sharded_core.pull_matching prm fuel position ⟨stream, rest, reads⟩ =
          (some x, p, ⟨stream, rest1, m⟩) ∧
        shard_from prm.shard_count prm.shard_index position rest =
          x :: shard_from prm.shard_count prm.shard_index p rest1) := by
  intro rest
  induction rest with
  | nil =>
    intro fuel position stream reads hf
    obtain ⟨f, rfl⟩ : ∃ f, fuel = f + 1 := ⟨fuel - 1, by omega⟩
    left
    exact ⟨rfl, position, reads + 1, by
      simp [sharded_core.pull_matching, instance_reader.read_instance]⟩
  | cons x xs ih =>
    intro fuel position stream reads hf
    obtain ⟨f, rfl⟩ : ∃ f, fuel = f + 1 := ⟨fuel - 1, by omega⟩
    have hf1 : xs.length < f := by simpa using hf
    by_cases h : position % prm.shard_count = prm.shard_index
    · right
      exact ⟨x, position + 1, xs, reads + 1, by
        simp [sharded_core.pull_matching, instance_reader.read_instance, h], by
        simp [shard_from, h]⟩
    · have := ih f (position + 1) stream (reads + 1) hf1
      simp only [sharded_core.pull_matching, instance_reader.read_instance, h, if_false,
        shard_from]
      exact this

theorem sharded_read_n {α : Type} (prm : data_reader_params) (xs : List α)
    (h0 : prm.shard_count ≠ 0) (hi : prm.shard_index < prm.shard_count) :
    ∃ s, sharded_instance_reader.make prm (instance_reader.over xs) = Except.ok s ∧
      ∀ k, (read_n sharded_instance_reader.read_instance k s).1 =
        ((shard_of prm.shard_count prm.shard_index xs).map some ++
          List.replicate k none).take k := by
  refine ⟨⟨⟨prm, instance_reader.over xs, true, 0⟩, life_cycle.fresh⟩, ?_, ?_⟩
  · have : ¬ (prm.shard_count = 0 ∨ prm.shard_index ≥ prm.shard_count) := by omega
    simp [sharded_instance_reader.make, this]
  · intro k
    let Inv : sharded_instance_reader α → List α → Prop := fun b l =>
      b.core.params = prm ∧
        ((b.state ≠ life_cycle.exhausted ∧
            l = shard_from prm.shard_count prm.shard_index b.core.position b.core.inner.rest) ∨
          (b.state = life_cycle.exhausted ∧ l = []))
    have hnil : ∀ s, Inv s [] → (sharded_instance_reader.read_instance s).1 = none ∧
        Inv (sharded_instance_reader.read_instance s).2 [] := by
      rintro ⟨⟨p, ⟨stream, rest, reads⟩, fr, pos⟩, st⟩ ⟨hp, h⟩
      simp only at hp
      subst hp
      rcases h with ⟨hst, hl⟩ | ⟨hst, _⟩
      · simp only at hst hl
        rcases pull_matching_spec p rest (rest.length + 1) pos stream reads (by omega) with
          ⟨_, q, m, hpm⟩ | ⟨x, q, rest1, m, _, hsf⟩
        · simp only [sharded_instance_reader.read_instance,
            instance_reader_base.read_instance, hst, if_false,
            sharded_core.read_instance_core, hpm]
          exact ⟨trivial, rfl, Or.inr ⟨rfl, rfl⟩⟩
        · rw [hsf] at hl; exact absurd hl (by simp)
      · simp only at hst
        simp only [sharded_instance_reader.read_instance,
          instance_reader_base.read_instance, hst, if_true]
        exact ⟨trivial, rfl, Or.inr ⟨rfl, rfl⟩⟩
    have hcons : ∀ s x l, Inv s (x :: l) →
        (sharded_instance_reader.read_instance s).1 = some x ∧
        Inv (sharded_instance_reader.read_instance s).2 l := by
      rintro ⟨⟨p, ⟨stream, rest, reads⟩, fr, pos⟩, st⟩ x l ⟨hp, h⟩
      simp only at hp
      subst hp
      rcases h with ⟨hst, hl⟩ | ⟨_, hl⟩
      · simp only at hst hl
        rcases pull_matching_spec p rest (rest.length + 1) pos stream reads (by omega) with
          ⟨hsf, _⟩ | ⟨y, q, rest1, m, hpm, hsf⟩
        · rw [hsf] at hl; exact absurd hl (by simp)
        · rw [hsf] at hl
          simp only [List.cons.injEq] at hl
          obtain ⟨rfl, rfl⟩ := hl
          simp only [sharded_instance_reader.read_instance,
            instance_reader_base.read_instance, hst, if_false,
            sharded_core.read_instance_core, hpm]
          exact ⟨trivial, rfl, Or.inl ⟨by simp, rfl⟩⟩
      · exact absurd hl (by simp)
    have h := (read_n_of_remaining sharded_instance_reader.read_instance Inv hnil hcons k
      ⟨⟨prm, instance_reader.over xs, true, 0⟩, life_cycle.fresh⟩
      (shard_of prm.shard_count prm.shard_index xs)
      ⟨rfl, Or.inl ⟨by simp, by
        rw [shard_of_eq_shard_from]; rfl⟩⟩).1
    exact h

theorem shard_from_enumFrom {α : Type} (n i : Nat) :
    ∀ (xs : List α) (p : Nat),
      shard_from n i p (xs.enumFrom p) =
        (xs.enumFrom p).filter (fun q => decide (q.1 % n = i)) := by
  intro xs
  induction xs with
  | nil => intro p; simp [shard_from]
  | cons x xs ih =>
    intro p
    by_cases h : p % n = i
    · simp [shard_from, List.enumFrom, List.filter_cons, h, ih]
    · simp [shard_from, List.enumFrom, List.filter_cons, h, ih]

theorem shard_output_eq {α : Type} (prm : data_reader_params) (i : Nat) (xs : List α)
    (hi : i < prm.shard_count) :
    shard_output prm i xs = shard_of prm.shard_count i xs := by
  obtain ⟨s, hs, hk⟩ := sharded_read_n (with_shard_index prm i) xs
    (by simp only [with_shard_index]; omega) (by simpa [with_shard_index] using hi)
  unfold shard_output
  rw [hs]
  simp only
  rw [hk (xs.length + 1)]
  apply reduceOption_take_map_some
  simp only [with_shard_index, shard_of, List.length_map]
  exact le_trans (List.length_filter_le _ _) (by simp [List.enum])

theorem filter_append_filter_perm {β : Type} (p q : β → Bool)
    (hpq : ∀ x, p x = true → q x = true → False) :
    ∀ l : List β, List.Perm (l.filter p ++ l.filter q) (l.filter (fun x => p x || q x)) := by
  intro l
  induction l with
  | nil => simp
  | cons x l ih =>
    cases hp : p x <;> cases hq : q x
    · simpa [List.filter_cons, hp, hq] using ih
    · simp only [List.filter_cons, hp, hq, Bool.false_or, if_true]
      exact List.perm_middle.trans (List.Perm.cons x (by simpa using ih))
    · simpa [List.filter_cons, hp, hq] using ih
    · exact absurd (hpq x hp hq) (by simp)

theorem bind_filter_range_perm {β : Type} (f : β → Nat) (l : List β) :
    ∀ n : Nat, List.Perm ((List.range n).flatMap (fun i => l.filter (fun x => decide (f x = i))))
      (l.filter (fun x => decide (f x < n))) := by
  intro n
  induction n with
  | zero => simp
  | succ n ih =>
    rw [List.range_succ, List.flatMap_append]
    simp only [List.flatMap_cons, List.flatMap_nil, List.append_nil]
    refine ((List.Perm.append_right _ ih).trans
      (filter_append_filter_perm _ _ ?_ l)).trans ?_
    · intro x h1 h2
      simp only [decide_eq_true_eq] at h1 h2
      omega
    · have : (fun x => decide (f x < n) || decide (f x = n)) =
          fun x => decide (f x < n + 1) := by
        funext x
        by_cases h1 : f x < n
        · simp [h1]; omega
        · by_cases h2 : f x = n
          · simp [h2]
          · have : ¬ f x < n + 1 := by omega
            simp [h1, h2, this]
      rw [this]

theorem discard_eq {α : Type} :
    ∀ (n : Nat) (stream rest : List α) (reads : Nat),
      instance_reader.discard n ⟨stream, rest, reads⟩ =
        ⟨stream, rest.drop n, reads + min n (rest.length + 1)⟩ := by
  intro n
  induction n with
  | zero => intro stream rest reads; simp [instance_reader.discard]
  | succ n ih =>
    intro stream rest reads
    cases rest with
    | nil => simp [instance_reader.discard, instance_reader.read_instance]
    | cons x rest =>
      simp only [instance_reader.discard, instance_reader.read_instance, ih, List.drop_succ_cons,
        List.length_cons]
      congr 1
      omega

theorem collect_eq {α : Type} :
    ∀ (n : Nat) (stream rest : List α) (reads : Nat),
      instance_reader.collect n ⟨stream, rest, reads⟩ =
        (rest.take n, ⟨stream, rest.drop n, reads + min n (rest.length + 1)⟩) := by
  intro n
  induction n with
  | zero => intro stream rest reads; simp [instance_reader.collect]
  | succ n ih =>
    intro stream rest reads
    cases rest with
    | nil => simp [instance_reader.collect, instance_reader.read_instance]
    | cons x rest =>
      simp only [instance_reader.collect, instance_reader.read_instance, ih, List.drop_succ_cons,
        List.length_cons, List.take_succ_cons]
      congr 2
      omega

theorem batches_of_fuel {α : Type} (prm : data_reader_params) (fill : α)
    (hb : 1 ≤ prm.batch_size) :
    ∀ (f1 f2 idx : Nat) (xs : List α), xs.length ≤ f1 → xs.length ≤ f2 →
      batches_of prm fill f1 idx xs = batches_of prm fill f2 idx xs := by
  intro f1
  induction f1 with
  | zero =>
    intro f2 idx xs h1 h2
    have : xs = [] := List.length_eq_zero.1 (by omega)
    subst this
    cases f2 <;> simp [batches_of]
  | succ f1 ih =>
    intro f2 idx xs h1 h2
    cases f2 with
    | zero =>
      have : xs = [] := List.length_eq_zero.1 (by omega)
      subst this
      simp [batches_of]
    | succ f2 =>
      simp only [batches_of]
      by_cases he : xs.isEmpty
      · simp [he]
      · have hne : xs ≠ [] := by simpa using he
        have hpos : 0 < xs.length := List.length_pos.2 hne
        by_cases hl : xs.length < prm.batch_size
        · simp [he, hl]
        · simp only [he, hl, if_false, Bool.false_eq_true]
          rw [ih f2 (idx + 1) (xs.drop prm.batch_size)
            (by simp only [List.length_drop]; omega) (by simp only [List.length_drop]; omega)]

theorem batch_step {α : Type} (prm : data_reader_params) (fill : α)
    (hb : 1 ≤ prm.batch_size) (stream rest : List α) (reads idx : Nat) :
    ∃ reads1 idx1,
      instance_batch_reader.read_instance_batch ⟨prm, ⟨stream, rest, reads⟩, idx, fill⟩ =
        ((batches_of prm fill rest.length idx rest).head?,
          ⟨prm, ⟨stream, rest.drop prm.batch_size, reads1⟩, idx1, fill⟩) ∧
      batches_of prm fill (rest.drop prm.batch_size).length idx1 (rest.drop prm.batch_size) =
        (batches_of prm fill rest.length idx rest).tail := by
  cases rest with
  | nil =>
    exact ⟨reads + min prm.batch_size 1, idx, by
      simp [instance_batch_reader.read_instance_batch, collect_eq, batches_of], by
      simp [batches_of]⟩
  | cons x rest =>
    by_cases hl : (x :: rest).length < prm.batch_size
    · have htake : (x :: rest).take prm.batch_size = x :: rest :=
        List.take_of_length_le (by omega)
      have hdrop : (x :: rest).drop prm.batch_size = [] :=
        List.drop_of_length_le (by omega)
      have hl1 : rest.length + 1 < prm.batch_size := by simpa using hl
      cases hp : prm.last_batch_hnd with
      | keep =>
        refine ⟨reads + min prm.batch_size ((x :: rest).length + 1), idx + 1, ?_, ?_⟩
        · simp only [instance_batch_reader.read_instance_batch, collect_eq, htake, hdrop,
            List.isEmpty_cons, Bool.false_eq_true, if_false, hl, if_true, hp,
            List.length_cons, batches_of, hl1, List.head?_cons]
        · simp [hdrop, batches_of, hl1, hp]
      | drop =>
        refine ⟨reads + min prm.batch_size ((x :: rest).length + 1), idx, ?_, ?_⟩
        · simp only [instance_batch_reader.read_instance_batch, collect_eq, htake, hdrop,
            List.isEmpty_cons, Bool.false_eq_true, if_false, hl, if_true, hp,
            List.length_cons, batches_of, hl1, List.head?_nil]
        · simp [hdrop, batches_of, hl1, hp]
      | pad =>
        refine ⟨reads + min prm.batch_size ((x :: rest).length + 1), idx + 1, ?_, ?_⟩
        · simp only [instance_batch_reader.read_instance_batch, collect_eq, htake, hdrop,
            List.isEmpty_cons, Bool.false_eq_true, if_false, hl, if_true, hp,
            List.length_cons, batches_of, hl1, List.head?_cons]
        · simp [hdrop, batches_of, hl1, hp]
    · have hl1 : ¬ rest.length + 1 < prm.batch_size := by simpa using hl
      have hlen : ((x :: rest).take prm.batch_size).length = prm.batch_size := by
        simp only [List.length_take, List.length_cons]; omega
      have hne : ((x :: rest).take prm.batch_size).isEmpty = false := by
        cases h : (x :: rest).take prm.batch_size with
        | nil => rw [h] at hlen; simp at hlen; omega
        | cons _ _ => rfl
      refine ⟨reads + min prm.batch_size ((x :: rest).length + 1), idx + 1, ?_, ?_⟩
      · simp only [instance_batch_reader.read_instance_batch, collect_eq, hne, hlen,
          Bool.false_eq_true, if_false, lt_irrefl, List.length_cons, batches_of, hl1,
          List.isEmpty_cons, List.head?_cons]
      · simp only [List.length_cons, batches_of, List.isEmpty_cons, Bool.false_eq_true,
          if_false, hl1, List.tail_cons]
        apply batches_of_fuel prm fill hb
        · exact le_refl _
        · simp only [List.length_drop, List.length_cons]; omega

theorem batch_read_n {α : Type} (prm : data_reader_params) (fill : α)
    (hb : 1 ≤ prm.batch_size) (xs : List α) :
    ∀ (k : Nat) (s : instance_batch_reader α), s.params = prm → s.fill = fill →
      s.reader.stream = xs →
      (read_n instance_batch_reader.read_instance_batch k s).1 =
        ((batches_of prm fill s.reader.rest.length s.batch_idx s.reader.rest).map some ++
          List.replicate k none).take k ∧
      (read_n instance_batch_reader.read_instance_batch k s).2.params = prm ∧
      (read_n instance_batch_reader.read_instance_batch k s).2.fill = fill ∧
      (read_n instance_batch_reader.read_instance_batch k s).2.reader.stream = xs := by
  intro k s hp hf hs
  let Inv : instance_batch_reader α → List (instance_batch α) → Prop := fun b l =>
    b.params = prm ∧ b.fill = fill ∧ b.reader.stream = xs ∧
      l = batches_of prm fill b.reader.rest.length b.batch_idx b.reader.rest
  have hstep : ∀ b l, Inv b l →
      (instance_batch_reader.read_instance_batch b).1 = l.head? ∧
      Inv (instance_batch_reader.read_instance_batch b).2 l.tail := by
    rintro ⟨p, ⟨stream, rest, reads⟩, idx, fl⟩ l ⟨h1, h2, h3, h4⟩
    simp only at h1 h2 h3 h4
    subst h1 h2 h3 h4
    obtain ⟨reads1, idx1, he, ht⟩ := batch_step p fl hb stream rest reads idx
    rw [he]
    exact ⟨rfl, rfl, rfl, rfl, ht.symm⟩
  have h := read_n_of_remaining instance_batch_reader.read_instance_batch Inv
    (fun b hb0 => by simpa using hstep b [] hb0) (fun b x l hb0 => by
      simpa using hstep b (x :: l) hb0) k s _ ⟨hp, hf, hs, rfl⟩
  exact ⟨h.1, h.2.1, h.2.2.1, h.2.2.2.1⟩

theorem batches_of_eq_expected {α : Type} (prm : data_reader_params) (fill : α)
    (hb : 1 ≤ prm.batch_size) :
    ∀ (fuel idx : Nat) (xs : List α), xs.length ≤ fuel →
      batches_of prm fill fuel idx xs = expected_batches prm fill idx xs := by
  intro fuel
  induction fuel with
  | zero =>
    intro idx xs h
    have : xs = [] := List.length_eq_zero.1 (by omega)
    subst this
    simp [batches_of, expected_batches, last_batch]
  | succ fuel ih =>
    intro idx xs h
    by_cases he : xs = []
    · subst he
      simp [batches_of, expected_batches, last_batch]
    · have hpos : 0 < xs.length := List.length_pos.2 he
      have hemp : xs.isEmpty = false := by simpa using he
      by_cases hl : xs.length < prm.batch_size
      · have hdiv : xs.length / prm.batch_size = 0 := Nat.div_eq_of_lt hl
        have hmod : xs.length % prm.batch_size = xs.length := Nat.mod_eq_of_lt hl
        have hmod0 : ¬ xs.length % prm.batch_size = 0 := by omega
        simp only [batches_of, hemp, Bool.false_eq_true, if_false, hl, if_true,
          expected_batches, hdiv, List.range_zero, List.map_nil, List.nil_append, last_batch,
          hmod, Nat.zero_mul, List.drop_zero, Nat.add_zero]
        have hx : ¬ xs.length = 0 := by omega
        simp only [hx, if_false]
      · have hge : prm.batch_size ≤ xs.length := by omega
        have hdiv : xs.length / prm.batch_size =
            (xs.length - prm.batch_size) / prm.batch_size + 1 := by
          rw [Nat.div_eq xs.length prm.batch_size]
          simp [hge, (show 0 < prm.batch_size by omega)]
        have hmod : xs.length % prm.batch_size =
            (xs.length - prm.batch_size) % prm.batch_size := Nat.mod_eq_sub_mod hge
        have hlen : (xs.drop prm.batch_size).length = xs.length - prm.batch_size := by simp
        have hih := ih (idx + 1) (xs.drop prm.batch_size) (by rw [hlen]; omega)
        simp only [batches_of, hemp, Bool.false_eq_true, if_false, hl, hih]
        simp only [expected_batches, hlen, hdiv, List.range_succ_eq_map, List.map_cons,
          List.map_map, Nat.zero_mul, List.drop_zero, Nat.add_zero, List.cons_append,
          List.cons.injEq, true_and]
        congr 1
        · apply List.map_congr_left
          intro j _
          simp only [Function.comp, List.drop_drop, instance_batch.mk.injEq, and_true]
          constructor
          · omega
          · congr 2
            rw [Nat.succ_mul]; omega
        · simp only [last_batch, hlen, ← hmod, List.drop_drop]
          have e1 : idx + 1 + (xs.length - prm.batch_size) / prm.batch_size =
              idx + ((xs.length - prm.batch_size) / prm.batch_size + 1) := by omega
          have e2 : prm.batch_size +
              (xs.length - prm.batch_size) / prm.batch_size * prm.batch_size =
              ((xs.length - prm.batch_size) / prm.batch_size + 1) * prm.batch_size := by
            rw [Nat.succ_mul]; omega
          rw [e1, e2, ← hdiv]

theorem flatten_chunks {α : Type} (b : Nat) (xs : List α) :
    ∀ q : Nat, ((List.range q).map (fun j => (xs.drop (j * b)).take b)).flatten =
      xs.take (q * b) := by
  intro q
  induction q with
  | zero => simp
  | succ q ih =>
    rw [List.range_succ, List.map_append, List.flatten_append, ih, Nat.succ_mul, List.take_add]
    simp

theorem expected_full_part {α : Type} (b : Nat) (xs : List α) (q : Nat)
    (hq : q * b ≤ xs.length) :
    ((List.range q).map (fun j =>
        (⟨0 + j, (xs.drop (j * b)).take b, false⟩ : instance_batch α))).map
          instance_batch.size = List.replicate q b ∧
    ((List.range q).map (fun j =>
        (⟨0 + j, (xs.drop (j * b)).take b, false⟩ : instance_batch α))).flatMap
          instance_batch.instances = xs.take (q * b) ∧
    ((List.range q).map (fun j =>
        (⟨0 + j, (xs.drop (j * b)).take b, false⟩ : instance_batch α))).map
          instance_batch.padded = List.replicate q false ∧
    ((List.range q).map (fun j =>
        (⟨0 + j, (xs.drop (j * b)).take b, false⟩ : instance_batch α))).map
          instance_batch.batch_index = List.range q := by
  refine ⟨?_, ?_, ?_, ?_⟩
  · rw [List.map_map]
    apply List.ext_getElem
    · simp
    · intro i h1 h2
      have hi : i < q := by simpa using h1
      have h3 : (i + 1) * b ≤ q * b := Nat.mul_le_mul_right b hi
      have h4 : (i + 1) * b = i * b + b := Nat.succ_mul i b
      simp only [List.getElem_map, List.getElem_range, Function.comp, instance_batch.size,
        List.length_take, List.length_drop, List.getElem_replicate]
      omega
  · rw [List.flatMap, List.map_map]
    exact flatten_chunks b xs q
  · rw [List.map_map]
    apply List.ext_getElem
    · simp
    · intro i h1 h2
      simp
  · rw [List.map_map]
    apply List.ext_getElem
    · simp
    · intro i h1 h2
      simp [Function.comp]

theorem ceil_div_eq (L b : Nat) (hb : 1 ≤ b) :
    (L + b - 1) / b = L / b + (if L % b = 0 then 0 else 1) := by
  have h := Nat.div_add_mod L b
  have hr : L % b < b := Nat.mod_lt _ (by omega)
  by_cases h0 : L % b = 0
  · simp only [h0, if_true, Nat.add_zero]
    have : L + b - 1 = (b - 1) + b * (L / b) := by omega
    rw [this, Nat.add_mul_div_left _ _ (by omega : 0 < b), Nat.div_eq_of_lt (by omega)]
    omega
  · simp only [h0, if_false]
    have : L + b - 1 = (L % b - 1) + b * (L / b + 1) := by
      rw [Nat.mul_add]; omega
    rw [this, Nat.add_mul_div_left _ _ (by omega : 0 < b), Nat.div_eq_of_lt (by omega)]
    omega

theorem make_batch_reader {α : Type} (prm : data_reader_params) (xs : List α) (fill : α)
    (hb : 1 ≤ prm.batch_size) :
    instance_batch_reader.make prm (instance_reader.over xs) fill =
      Except.ok ⟨prm, ⟨xs, xs.drop prm.num_instances_to_skip,
        0 + min prm.num_instances_to_skip (xs.length + 1)⟩, 0, fill⟩ := by
  have : ¬ prm.batch_size = 0 := by omega
  simp [instance_batch_reader.make, this, instance_batch_reader.init_num_instances_to_skip,
    instance_reader.over, discard_eq]

theorem batch_reader_outputs {α : Type} (prm : data_reader_params) (xs : List α) (fill : α)
    (hb : 1 ≤ prm.batch_size) :
    ∃ s, instance_batch_reader.make prm (instance_reader.over xs) fill = Except.ok s ∧
      ∀ k, (read_n instance_batch_reader.read_instance_batch k s).1 =
        ((expected_batches prm fill 0 (xs.drop prm.num_instances_to_skip)).map some ++
          List.replicate k none).take k := by
  refine ⟨_, make_batch_reader prm xs fill hb, ?_⟩
  intro k
  rw [(batch_read_n prm fill hb xs k _ rfl rfl rfl).1]
  simp only
  rw [batches_of_eq_expected prm fill hb _ _ _ (le_refl _)]

theorem batch_state_outputs {α : Type} (s : instance_batch_reader α)
    (hb : 1 ≤ s.params.batch_size) :
    ∀ k, (read_n instance_batch_reader.read_instance_batch k s).1 =
      ((expected_batches s.params s.fill s.batch_idx s.reader.rest).map some ++
        List.replicate k none).take k := by
  intro k
  rw [(batch_read_n s.params s.fill hb s.reader.stream k s rfl rfl rfl).1,
    batches_of_eq_expected s.params s.fill hb _ _ _ (le_refl _)]

/-! ## The claims on the readers -/

/-- C1: for every shard count of at least 1 and every finite inner stream, the
sharded reader with index `i` below the shard count is constructed and yields,
in order, exactly the instances whose zero-based position `p` in the inner
stream satisfies `p mod shard_count == i`, and then end of stream on every
further pull; consequently, over the stream of the instances tagged with
their positions, the outputs of the shard readers with the indices
`0..shard_count-1` are pairwise disjoint and together are a permutation of the
whole inner stream (no duplicate, no omission). -/
theorem sharded_reader_partition {α : Type} (prm : data_reader_params) (xs : List α)
    (hn : 1 ≤ prm.shard_count) :
    (∀ i, i < prm.shard_count →
      ∃ s, sharded_instance_reader.make (with_shard_index prm i) (instance_reader.over xs) =
          Except.ok s ∧
        ∀ k, (read_n sharded_instance_reader.read_instance k s).1 =
          ((shard_of prm.shard_count i xs).map some ++ List.replicate k none).take k) ∧
    (∀ i, i < prm.shard_count →
      shard_output prm i xs.enum =
        xs.enum.filter (fun q => decide (q.1 % prm.shard_count = i))) ∧
    (∀ i j, i < prm.shard_count → j < prm.shard_count → i ≠ j →
      List.Disjoint (shard_output prm i xs.enum) (shard_output prm j xs.enum)) ∧
    List.Perm ((List.range prm.shard_count).flatMap (fun i => shard_output prm i xs.enum))
      xs.enum := by
  have hout : ∀ i, i < prm.shard_count →
      shard_output prm i xs.enum =
        xs.enum.filter (fun q => decide (q.1 % prm.shard_count = i)) := by
    intro i hi
    rw [shard_output_eq prm i _ hi, shard_of_eq_shard_from]
    exact shard_from_enumFrom prm.shard_count i xs 0
  refine ⟨?_, hout, ?_, ?_⟩
  · intro i hi
    have := sharded_read_n (with_shard_index prm i) xs
      (by simp only [with_shard_index]; omega) (by simpa [with_shard_index] using hi)
    simpa [with_shard_index] using this
  · intro i j hi hj hij q h1 h2
    rw [hout i hi] at h1
    rw [hout j hj] at h2
    have e1 := (List.mem_filter.1 h1).2
    have e2 := (List.mem_filter.1 h2).2
    simp only [decide_eq_true_eq] at e1 e2
    exact hij (e1.symm.trans e2)
  · have hmap : (List.range prm.shard_count).flatMap (fun i => shard_output prm i xs.enum) =
        (List.range prm.shard_count).flatMap
          (fun i => xs.enum.filter (fun q => decide (q.1 % prm.shard_count = i))) := by
      simp only [List.flatMap]
      congr 1
      apply List.map_congr_left
      intro i hi
      exact hout i (List.mem_range.1 hi)
    rw [hmap]
    refine (bind_filter_range_perm (fun q : Nat × α => q.1 % prm.shard_count) xs.enum
      prm.shard_count).trans ?_
    have : xs.enum.filter (fun q => decide (q.1 % prm.shard_count < prm.shard_count)) =
        xs.enum := by
      apply List.filter_eq_self.2
      intro q _
      simp only [decide_eq_true_eq]
      exact Nat.mod_lt _ (by omega)
    rw [this]

/-- Witness of C1: three shards over a stream of ten instances; shard 0 gets
the positions 0, 3, 6, 9, shard 1 the positions 1, 4, 7 and shard 2 the
positions 2, 5, 8. -/
theorem sharded_reader_partition_witness :
    1 ≤ three_shards.shard_count ∧
    ((∀ i, i < three_shards.shard_count →
      ∃ s, sharded_instance_reader.make (with_shard_index three_shards i)
          (instance_reader.over ten_instances) = Except.ok s ∧
        ∀ k, (read_n sharded_instance_reader.read_instance k s).1 =
          ((shard_of three_shards.shard_count i ten_instances).map some ++
            List.replicate k none).take k) ∧
    (∀ i, i < three_shards.shard_count →
      shard_output three_shards i ten_instances.enum =
        ten_instances.enum.filter (fun q => decide (q.1 % three_shards.shard_count = i))) ∧
    (∀ i j, i < three_shards.shard_count → j < three_shards.shard_count → i ≠ j →
      List.Disjoint (shard_output three_shards i ten_instances.enum)
        (shard_output three_shards j ten_instances.enum)) ∧
    List.Perm ((List.range three_shards.shard_count).flatMap
        (fun i => shard_output three_shards i ten_instances.enum))
      ten_instances.enum) ∧
    shard_output three_shards 0 ten_instances = [100, 103, 106, 109] ∧
    shard_output three_shards 1 ten_instances = [101, 104, 107] ∧
    shard_output three_shards 2 ten_instances = [102, 105, 108] :=
  ⟨by decide, sharded_reader_partition three_shards ten_instances (by decide),
    by decide, by decide, by decide⟩

/-- C5: for every batch size `b ≥ 1` and every wrapped stream of length `L`
(skip 0), the batch reader is constructed and repeated calls of
`read_instance_batch` yield the expected batches and then end of stream:
`floor(L/b)` full batches, batch `j` holding the `b` consecutive instances
from position `j * b` on, followed under keep-partial by one batch of the
trailing `L mod b` instances when `L mod b ≠ 0`, under drop-partial by nothing
(the trailing instances are discarded), under pad-partial by one batch padded
to size `b` and flagged padded; the batches are numbered from 0. -/
theorem batch_reader_last_batch_policies {α : Type} (prm : data_reader_params)
    (xs : List α) (fill : α) (hb : 1 ≤ prm.batch_size)
    (hskip : prm.num_instances_to_skip = 0) :
    ∃ s bs, instance_batch_reader.make prm (instance_reader.over xs) fill = Except.ok s ∧
      (∀ k, (read_n instance_batch_reader.read_instance_batch k s).1 =
        (bs.map some ++ List.replicate k none).take k) ∧
      bs = expected_batches prm fill 0 xs ∧
      bs.map instance_batch.batch_index = List.range bs.length ∧
      (prm.last_batch_hnd = last_batch_handling.keep →
        bs.map instance_batch.size =
          List.replicate (xs.length / prm.batch_size) prm.batch_size ++
            (if xs.length % prm.batch_size = 0 then [] else [xs.length % prm.batch_size]) ∧
        bs.flatMap instance_batch.instances = xs ∧
        ∀ x ∈ bs, x.padded = false) ∧
      (prm.last_batch_hnd = last_batch_handling.drop →
        bs.map instance_batch.size =
          List.replicate (xs.length / prm.batch_size) prm.batch_size ∧
        bs.flatMap instance_batch.instances =
          xs.take (xs.length / prm.batch_size * prm.batch_size) ∧
        ∀ x ∈ bs, x.padded = false) ∧
      (prm.last_batch_hnd = last_batch_handling.pad →
        bs.map instance_batch.size =
          List.replicate ((xs.length + prm.batch_size - 1) / prm.batch_size) prm.batch_size ∧
        bs.flatMap instance_batch.instances =
          xs ++ List.replicate
            ((prm.batch_size - xs.length % prm.batch_size) % prm.batch_size) fill ∧
        bs.map instance_batch.padded =
          List.replicate (xs.length / prm.batch_size) false ++
            (if xs.length % prm.batch_size = 0 then [] else [true])) := by
  obtain ⟨s, hs, hk⟩ := batch_reader_outputs prm xs fill hb
  rw [hskip, List.drop_zero] at hk
  have hdm := Nat.div_add_mod xs.length prm.batch_size
  have hr : xs.length % prm.batch_size < prm.batch_size := Nat.mod_lt _ (by omega)
  have hq : xs.length / prm.batch_size * prm.batch_size ≤ xs.length := by
    rw [Nat.mul_comm]; omega
  have hq2 : xs.length - xs.length / prm.batch_size * prm.batch_size =
      xs.length % prm.batch_size := by
    rw [Nat.mul_comm]; omega
  obtain ⟨f1, f2, f3, f4⟩ := expected_full_part prm.batch_size xs
    (xs.length / prm.batch_size) hq
  refine ⟨s, expected_batches prm fill 0 xs, hs, hk, rfl, ?_, ?_, ?_, ?_⟩
  · simp only [expected_batches, List.map_append, f4, List.length_append, List.length_map,
      List.length_range, last_batch]
    by_cases h0 : xs.length % prm.batch_size = 0
    · simp [h0]
    · cases hp : prm.last_batch_hnd <;> simp [h0, List.range_succ]
  · intro hp
    simp only [expected_batches, List.map_append, f1, List.flatMap_append, f2, last_batch, hp]
    by_cases h0 : xs.length % prm.batch_size = 0
    · have hfull : xs.length / prm.batch_size * prm.batch_size = xs.length := by omega
      simp only [h0, if_true, List.map_nil, List.append_nil, List.flatMap_nil, hfull,
        List.take_length, true_and, List.mem_append, List.mem_map, List.mem_range,
        List.not_mem_nil, or_false]
      rintro x ⟨j, _, rfl⟩
      rfl
    · simp only [h0, if_false, List.map_cons, List.map_nil, instance_batch.size,
        List.length_drop, hq2, List.flatMap_cons, List.flatMap_nil, List.append_nil,
        List.take_append_drop, true_and, List.mem_append, List.mem_map, List.mem_range,
        List.mem_singleton]
      rintro x (⟨j, _, rfl⟩ | rfl) <;> rfl
  · intro hp
    simp only [expected_batches, List.map_append, f1, List.flatMap_append, f2, last_batch, hp]
    have hnil : (if xs.length % prm.batch_size = 0 then ([] : List (instance_batch α))
        else []) = [] := by split <;> rfl
    simp only [hnil, List.map_nil, List.append_nil, List.flatMap_nil, true_and,
      List.mem_map, List.mem_range]
    rintro x ⟨j, _, rfl⟩
    rfl
  · intro hp
    simp only [expected_batches, List.map_append, f1, f3, List.flatMap_append, f2, last_batch,
      hp, ceil_div_eq xs.length prm.batch_size hb]
    by_cases h0 : xs.length % prm.batch_size = 0
    · have hfull : xs.length / prm.batch_size * prm.batch_size = xs.length := by omega
      simp [h0, hfull]
    · have hmod : (prm.batch_size - xs.length % prm.batch_size) % prm.batch_size =
          prm.batch_size - xs.length % prm.batch_size := Nat.mod_eq_of_lt (by omega)
      simp only [h0, if_false, List.map_cons, List.map_nil, instance_batch.size,
        List.length_append, List.length_drop, hq2, List.length_replicate, List.flatMap_cons,
        List.flatMap_nil, List.append_nil, hmod, and_true]
      refine ⟨?_, ?_⟩
      · rw [List.replicate_succ', (by omega : xs.length % prm.batch_size +
          (prm.batch_size - xs.length % prm.batch_size) = prm.batch_size)]
      · rw [← List.append_assoc, List.take_append_drop]

/-- Witness of C5: a stream of 23 instances with batch size 10 gives batches
of the sizes 10, 10, 3 under keep-partial, 10, 10 under drop-partial and
10, 10, 10 (the third flagged padded) under pad-partial. -/
theorem batch_reader_last_batch_policies_witness :
    1 ≤ (batch_of_ten last_batch_handling.pad).batch_size ∧
    (batch_of_ten last_batch_handling.pad).num_instances_to_skip = 0 ∧
    (∃ s bs, instance_batch_reader.make (batch_of_ten last_batch_handling.pad)
          (instance_reader.over stream_23) 0 = Except.ok s ∧
      (∀ k, (read_n instance_batch_reader.read_instance_batch k s).1 =
        (bs.map some ++ List.replicate k none).take k) ∧
      bs = expected_batches (batch_of_ten last_batch_handling.pad) 0 0 stream_23 ∧
      bs.map instance_batch.batch_index = List.range bs.length ∧
      ((batch_of_ten last_batch_handling.pad).last_batch_hnd = last_batch_handling.keep →
        bs.map instance_batch.size =
          List.replicate (stream_23.length / (batch_of_ten last_batch_handling.pad).batch_size)
              (batch_of_ten last_batch_handling.pad).batch_size ++
            (if stream_23.length % (batch_of_ten last_batch_handling.pad).batch_size = 0
              then []
              else [stream_23.length % (batch_of_ten last_batch_handling.pad).batch_size]) ∧
        bs.flatMap instance_batch.instances = stream_23 ∧
        ∀ x ∈ bs, x.padded = false) ∧
      ((batch_of_ten last_batch_handling.pad).last_batch_hnd = last_batch_handling.drop →
        bs.map instance_batch.size =
          List.replicate (stream_23.length / (batch_of_ten last_batch_handling.pad).batch_size)
            (batch_of_ten last_batch_handling.pad).batch_size ∧
        bs.flatMap instance_batch.instances =
          stream_23.take (stream_23.length /
            (batch_of_ten last_batch_handling.pad).batch_size *
              (batch_of_ten last_batch_handling.pad).batch_size) ∧
        ∀ x ∈ bs, x.padded = false) ∧
      ((batch_of_ten last_batch_handling.pad).last_batch_hnd = last_batch_handling.pad →
        bs.map instance_batch.size =
          List.replicate ((stream_23.length +
              (batch_of_ten last_batch_handling.pad).batch_size - 1) /
              (batch_of_ten last_batch_handling.pad).batch_size)
            (batch_of_ten last_batch_handling.pad).batch_size ∧
        bs.flatMap instance_batch.instances =
          stream_23 ++ List.replicate
            (((batch_of_ten last_batch_handling.pad).batch_size -
              stream_23.length % (batch_of_ten last_batch_handling.pad).batch_size) %
                (batch_of_ten last_batch_handling.pad).batch_size) 0 ∧
        bs.map instance_batch.padded =
          List.replicate (stream_23.length /
              (batch_of_ten last_batch_handling.pad).batch_size) false ++
            (if stream_23.length % (batch_of_ten last_batch_handling.pad).batch_size = 0
              then [] else [true]))) ∧
    (batch_outputs (batch_of_ten last_batch_handling.keep)
        (instance_reader.over stream_23) 0 4).map (Option.map instance_batch.size) =
      [some 10, some 10, some 3, none] ∧
    (batch_outputs (batch_of_ten last_batch_handling.drop)
        (instance_reader.over stream_23) 0 4).map (Option.map instance_batch.size) =
      [some 10, some 10, none, none] ∧
    (batch_outputs (batch_of_ten last_batch_handling.pad)
        (instance_reader.over stream_23) 0 4).map (Option.map instance_batch.size) =
      [some 10, some 10, some 10, none] ∧
    (batch_outputs (batch_of_ten last_batch_handling.pad)
        (instance_reader.over stream_23) 0 4).map (Option.map instance_batch.padded) =
      [some false, some false, some true, none] :=
  ⟨by decide, by decide,
    batch_reader_last_batch_policies (batch_of_ten last_batch_handling.pad) stream_23 0
      (by decide) (by decide),
    by decide, by decide, by decide, by decide⟩

/-- C10: for every parameter set with a batch size of at least 1 and every
wrapped stream, the batch reader is constructed, and after any number of calls
of `read_instance_batch` (in particular after reading until end of stream)
`reset()` followed by reading again reproduces the original sequence of
batches: the same batches with the same instances and the same `batch_index`
values starting again at 0, the initial skip of `num_instances_to_skip`
instances applied again. -/
theorem reset_reproduces_batches {α : Type} (prm : data_reader_params) (xs : List α)
    (fill : α) (hb : 1 ≤ prm.batch_size) :
    ∃ s, instance_batch_reader.make prm (instance_reader.over xs) fill = Except.ok s ∧
      (∀ j1 j2,
        (read_n instance_batch_reader.read_instance_batch j2
          (instance_batch_reader.reset
            (read_n instance_batch_reader.read_instance_batch j1 s).2)).1 =
        (read_n instance_batch_reader.read_instance_batch j2 s).1) ∧
      (∀ j2, (read_n instance_batch_reader.read_instance_batch j2 s).1 =
        ((expected_batches prm fill 0 (xs.drop prm.num_instances_to_skip)).map some ++
          List.replicate j2 none).take j2) ∧
      (∀ j1, (instance_batch_reader.reset
          (read_n instance_batch_reader.read_instance_batch j1 s).2).batch_idx = 0 ∧
        (instance_batch_reader.reset
          (read_n instance_batch_reader.read_instance_batch j1 s).2).reader.rest =
          xs.drop prm.num_instances_to_skip) := by
  obtain ⟨s, hs, hk⟩ := batch_reader_outputs prm xs fill hb
  have hs0 := make_batch_reader prm xs fill hb
  rw [hs] at hs0
  have hs1 : s = ⟨prm, ⟨xs, xs.drop prm.num_instances_to_skip,
        0 + min prm.num_instances_to_skip (xs.length + 1)⟩, 0, fill⟩ := by
    simpa using hs0
  have hreset : ∀ j1, ∃ m, instance_batch_reader.reset
      (read_n instance_batch_reader.read_instance_batch j1 s).2 =
        ⟨prm, ⟨xs, xs.drop prm.num_instances_to_skip, m⟩, 0, fill⟩ := by
    intro j1
    obtain ⟨_, h2, h3, h4⟩ := batch_read_n prm fill hb xs j1 s (by rw [hs1]) (by rw [hs1])
      (by rw [hs1])
    rcases hst : (read_n instance_batch_reader.read_instance_batch j1 s).2 with
      ⟨p, ⟨stream, rest, reads⟩, idx, fl⟩
    rw [hst] at h2 h3 h4
    simp only at h2 h3 h4
    subst h2 h3 h4
    refine ⟨reads + min p.num_instances_to_skip (stream.length + 1), ?_⟩
    simp only [instance_batch_reader.reset,
      instance_batch_reader.init_num_instances_to_skip, instance_reader.reset, discard_eq]
  refine ⟨s, hs, ?_, hk, ?_⟩
  · intro j1 j2
    obtain ⟨m, hm⟩ := hreset j1
    rw [hm, hk j2, batch_state_outputs _ hb]
  · intro j1
    obtain ⟨m, hm⟩ := hreset j1
    rw [hm]
    exact ⟨rfl, rfl⟩

/-- Witness of C10: skip 4 with batch size 2 over a stream of ten instances;
after five calls (the last one returning end of stream) `reset()` and three
further calls give again the batches numbered 0, 1, 2 from instance 104 on. -/
theorem reset_reproduces_batches_witness :
    1 ≤ skip_four.batch_size ∧
    (∃ s, instance_batch_reader.make skip_four (instance_reader.over ten_instances) 0 =
        Except.ok s ∧
      (∀ j1 j2,
        (read_n instance_batch_reader.read_instance_batch j2
          (instance_batch_reader.reset
            (read_n instance_batch_reader.read_instance_batch j1 s).2)).1 =
        (read_n instance_batch_reader.read_instance_batch j2 s).1) ∧
      (∀ j2, (read_n instance_batch_reader.read_instance_batch j2 s).1 =
        ((expected_batches skip_four 0 0
            (ten_instances.drop skip_four.num_instances_to_skip)).map some ++
          List.replicate j2 none).take j2) ∧
      (∀ j1, (instance_batch_reader.reset
          (read_n instance_batch_reader.read_instance_batch j1 s).2).batch_idx = 0 ∧
        (instance_batch_reader.reset
          (read_n instance_batch_reader.read_instance_batch j1 s).2).reader.rest =
          ten_instances.drop skip_four.num_instances_to_skip)) ∧
    (match instance_batch_reader.make skip_four (instance_reader.over ten_instances) 0 with
      | Except.error _ => []
      | Except.ok s =>
        (read_n instance_batch_reader.read_instance_batch 5 s).1 ++
          (read_n instance_batch_reader.read_instance_batch 3
            (instance_batch_reader.reset
              (read_n instance_batch_reader.read_instance_batch 5 s).2)).1) =
      [some ⟨0, [104, 105], false⟩, some ⟨1, [106, 107], false⟩,
        some ⟨2, [108, 109], false⟩, none, none,
        some ⟨0, [104, 105], false⟩, some ⟨1, [106, 107], false⟩,
        some ⟨2, [108, 109], false⟩] :=
  ⟨by decide, reset_reproduces_batches skip_four ten_instances 0 (by decide), by decide⟩

end mlio
